import Mathlib

/-!
Verification of the process-streaming adapter layer of the
`vsc-copilot-cli-agents` VS Code extension.

The embedding mirrors `src/cli/spawnCliRunner.ts` (the abstract
`SpawnCliRunner` class: chunk framing, per-line parsing, session-id
extraction, close/error reconciliation, shell-argument escaping) together
with the three vendor participants in `src/participants/feature/`
(`claude.ts`, `codex.ts`, `gemini.ts`: `parseLineWithSession` and
`buildCliOptions`).

Modelling conventions:
* Data chunks are modelled at two levels.  The main run model takes the
  decoded text of each chunk (`List Char`), the output of
  `chunk.toString()`; JavaScript strings in the source become `String` /
  `List Char`.  For byte-level questions, `utf8DecodeReplace` models
  `Buffer.toString('utf8')` itself (WHATWG UTF-8 decoding with U+FFFD
  replacement, applied per chunk with no decoder state carried across
  chunks, exactly as the source does), and `runModelBytes` composes it
  with the run model.
* The abstract method `parseLineWithSession` of `SpawnCliRunner` becomes an
  explicit function parameter `parse : String → ParseResult`, exactly as the
  class leaves it abstract.
* `JSON.parse` followed by the unchecked `as` cast in each vendor parser is
  modelled by a parameter `jsonParse : String → Option M` into the vendor's
  declared message interface (`ClaudeStreamMessage`, `CodexStreamMessage`,
  `GeminiStreamMessage` from `src/cli/types.ts`); `none` is the branch in
  which `JSON.parse` throws and the `catch` clause runs.  All embedded
  functions are total, which reflects that the `try`/`catch` in the source
  keeps `parseLineWithSession` from ever throwing.
* JavaScript truthiness on optional strings (`if (x)`) is `jsTruthyStr`;
  the empty string is falsy.
* The `Promise` resolution discipline (a second call to `resolve` is a
  no-op) is modelled by `resolveOnce`; the resolved value is stored together
  with a snapshot of the events that had been forwarded to the streaming
  callback at resolution time.
* The streaming callback `onContent` never throws in the main model; every
  invocation is logged in `StreamState.events`.  The variant
  `processChunkWithBufferExn` models the same source loop with a callback
  that may throw, exceptions propagating exactly as in the source (which
  has no `try`/`catch` around `context.onContent`).
-/

namespace CliAgents

/-- Character used for shell single-quoting (written via `Char.ofNat` to
keep source fidelity explicit). -/
def squote : Char := Char.ofNat 39

/-- Opening brace character. -/
def lbrace : Char := Char.ofNat 123

/-- Closing brace character. -/
def rbrace : Char := Char.ofNat 125

/-- Opening bracket character. -/
def lbrack : Char := Char.ofNat 91

/-- JavaScript string truthiness for optional string values: `undefined`
and the empty string are falsy. -/
def jsTruthyStr : Option String → Bool
  | some s => decide (s ≠ "")
  | none => false

/-- `x || d` on an optional string, as used for `item.name || 'tool'`. -/
def jsOrStr (o : Option String) (d : String) : String :=
  if jsTruthyStr o then o.getD d else d

/-- `StreamContentType` from `src/cli/types.ts` (including the `reasoning`
variant used by the Codex parser). -/
inductive StreamContentType
  | text
  | tool_use
  | tool_result
  | reasoning
deriving DecidableEq, Repr

/-- `StreamContent` from `src/cli/types.ts`. -/
structure StreamContent where
  type : StreamContentType
  content : String
  toolName : Option String := none
deriving DecidableEq, Repr

/-- `ParseResult` from `src/cli/spawnCliRunner.ts`. -/
structure ParseResult where
  content : Option StreamContent
  sessionId : Option String := none
deriving DecidableEq, Repr

/-- `CliResult` from `src/cli/types.ts`. -/
structure CliResult where
  success : Bool
  content : String
  error : Option String := none
  sessionId : Option String := none
deriving DecidableEq, Repr

/-- Whitespace recognised by JavaScript `String.prototype.trim`. -/
def isJsWhitespace (c : Char) : Bool :=
  c = ' ' || c = '\t' || c = '\n' || c = '\r' ||
  c.toNat = 0x0b || c.toNat = 0x0c || c.toNat = 0xa0 || c.toNat = 0x1680 ||
  (0x2000 ≤ c.toNat && c.toNat ≤ 0x200a) ||
  c.toNat = 0x2028 || c.toNat = 0x2029 || c.toNat = 0x202f ||
  c.toNat = 0x205f || c.toNat = 0x3000 || c.toNat = 0xfeff

/-- `String.prototype.trim` on character lists. -/
def jsTrim (l : List Char) : List Char :=
  List.rdropWhile isJsWhitespace (l.dropWhile isJsWhitespace)

/-- Parameter characters of an ANSI escape sequence, `[0-9;]` in the regex
of `cleanAnsi`. -/
def isAnsiParam (c : Char) : Bool := c.isDigit || c = ';'

/-- Given the characters that follow an `ESC`, if `[` + parameters + letter
follows (the regex `\x1B\[[0-9;]*[a-zA-Z]` matches here), return the
remainder after the sequence. -/
def ansiSplit (rest : List Char) : Option (List Char) :=
  match rest with
  | c :: r2 =>
    if c = lbrack then
      match r2.dropWhile isAnsiParam with
      | l :: r4 => if l.isAlpha then some r4 else none
      | [] => none
    else none
  | [] => none

/-- Worker for `cleanAnsi`: global replacement of the regex
`\x1B\[[0-9;]*[a-zA-Z]` by the empty string, on character lists.  A match
can only begin at an `ESC` character, so leftmost-match global replacement
is this recursion.  The fuel argument only drives structural recursion:
`ansiSplit` always returns a strictly shorter remainder, so with fuel equal
to the list length the fuel-exhausted branch is unreachable. -/
def cleanAnsiGo : Nat → List Char → List Char
  | _, [] => []
  | 0, l => l
  | fuel + 1, c :: rest =>
    if c = '\x1b' then
      match ansiSplit rest with
      | some r' => cleanAnsiGo fuel r'
      | none => c :: cleanAnsiGo fuel rest
    else c :: cleanAnsiGo fuel rest

/-- `cleanAnsi` from `SpawnCliRunner`, on character lists. -/
def cleanAnsiList (l : List Char) : List Char := cleanAnsiGo l.length l

/-- `cleanAnsi` on strings. -/
def cleanAnsi (s : String) : String := ⟨cleanAnsiList s.data⟩

/-- `isLikelyJsonLine` from `SpawnCliRunner`: the trimmed line starts with
`{` or `[`. -/
def isLikelyJsonLine (line : String) : Bool :=
  let trimmed := jsTrim line.data
  trimmed.head? = some lbrace || trimmed.head? = some lbrack

/-- JavaScript `str.split('\n')` on character lists; always returns a
non-empty list of newline-free segments. -/
def splitNl : List Char → List (List Char)
  | [] => [[]]
  | c :: rest =>
    if c = '\n' then [] :: splitNl rest
    else
      match splitNl rest with
      | [] => [[c]]
      | h :: t => (c :: h) :: t

/-- Streaming accumulation state shared by stdout and stderr processing:
the `fullContent` accumulator, the extracted session id and the log of all
contents forwarded to the `onContent` callback, in order. -/
structure StreamState where
  fullContent : String
  sessionId : Option String
  events : List StreamContent
deriving DecidableEq, Repr

/-- The body of the `for (const line of lines)` loop in
`processChunkWithBuffer`: ANSI-clean and trim the line, skip it if empty or
(on the JSON-only channel) not JSON-looking, otherwise parse it, capture a
first session id and forward/accumulate the content. -/
def processLine (parse : String → ParseResult) (parseJsonOnly : Bool)
    (st : StreamState) (line : List Char) : StreamState :=
  let cleanLine := jsTrim (cleanAnsiList line)
  if cleanLine = [] then st
  else if parseJsonOnly && !isLikelyJsonLine ⟨cleanLine⟩ then st
  else
    let parseResult := parse ⟨cleanLine⟩
    let st1 :=
      if jsTruthyStr parseResult.sessionId && !jsTruthyStr st.sessionId then
        { st with sessionId := parseResult.sessionId }
      else st
    match parseResult.content with
    | none => st1
    | some c =>
      let st2 :=
        if c.type = StreamContentType.text then
          { st1 with fullContent := st1.fullContent ++ c.content }
        else st1
      { st2 with events := st2.events ++ [c] }

/-- `processChunkWithBuffer` from `SpawnCliRunner`: append the chunk to the
line buffer, split on newlines, keep the final (possibly incomplete)
segment as the new buffer and run the line loop over the complete lines.
Returns the new buffer value together with the updated stream state. -/
def processChunkWithBuffer (parse : String → ParseResult)
    (chunk : List Char) (buffer : List Char) (st : StreamState)
    (parseJsonOnly : Bool) : List Char × StreamState :=
  let all := buffer ++ chunk
  let lines := splitNl all
  let buffer' := lines.getLastD []
  let st' := lines.dropLast.foldl (processLine parse parseJsonOnly) st
  (buffer', st')

/-- Full per-run context, mirroring `ProcessContext` plus the promise:
`fullContent`/`extractedSessionId` and the callback log live in `stream`;
`buffer`, `stderrBuffer` and `stderrContent` are the other mutable cells;
`settled` models the promise (`none` = pending), storing the resolved
`CliResult` together with the event log at resolution time; and
`abortRegistered` tracks the abort-signal listener registration. -/
structure RunState where
  stream : StreamState
  buffer : List Char
  stderrBuffer : List Char
  stderrContent : String
  settled : Option (CliResult × List StreamContent)
  abortRegistered : Bool
deriving DecidableEq, Repr

/-- Promise resolution: only the first `resolve` call settles the promise;
later calls are ignored.  The snapshot of the callback log is taken at
resolution time. -/
def resolveOnce (rs : RunState) (r : CliResult) : RunState :=
  match rs.settled with
  | some _ => rs
  | none => { rs with settled := some (r, rs.stream.events) }

/-- `cleanupAbortListener`: `removeEventListener` is idempotent. -/
def cleanupAbortListener (rs : RunState) : RunState :=
  { rs with abortRegistered := false }

/-- `processRemainingBuffer` from `SpawnCliRunner`: when the stdout line
buffer is non-blank, run it once through `cleanAnsi`/`trim`/parse with the
same session-id and content handling as the chunk loop. -/
def processRemainingBuffer (parse : String → ParseResult) (rs : RunState) :
    RunState :=
  if jsTrim rs.buffer = [] then rs
  else
    let cleanLine := jsTrim (cleanAnsiList rs.buffer)
    let parseResult := parse ⟨cleanLine⟩
    let st := rs.stream
    let st1 :=
      if jsTruthyStr parseResult.sessionId && !jsTruthyStr st.sessionId then
        { st with sessionId := parseResult.sessionId }
      else st
    let st3 :=
      match parseResult.content with
      | none => st1
      | some c =>
        let st2 :=
          if c.type = StreamContentType.text then
            { st1 with fullContent := st1.fullContent ++ c.content }
          else st1
        { st2 with events := st2.events ++ [c] }
    { rs with stream := st3 }

/-- Rendering of the `number | null` exit code inside the template literal
of `handleProcessClose`. -/
def exitCodeString : Option Int → String
  | some n => toString n
  | none => "null"

/-- `handleProcessClose` from `SpawnCliRunner`: clean up the abort
listener, flush the remaining stdout buffer, then resolve success on exit
code 0 and failure (with exit code and captured stderr in the error
message) on any other exit code. -/
def handleProcessClose (parse : String → ParseResult)
    (exitCode : Option Int) (rs : RunState) : RunState :=
  let rs1 := processRemainingBuffer parse (cleanupAbortListener rs)
  if exitCode = some 0 then
    resolveOnce rs1
      { success := true
        content := rs1.stream.fullContent
        sessionId := rs1.stream.sessionId }
  else
    let errorDetails :=
      if jsTruthyStr (some rs1.stderrContent) then
        "\nStderr: " ++ rs1.stderrContent
      else ""
    resolveOnce rs1
      { success := false
        content := rs1.stream.fullContent
        error := some ("Process exited with code " ++ exitCodeString exitCode
          ++ errorDetails)
        sessionId := rs1.stream.sessionId }

/-- `handleProcessError` from `SpawnCliRunner`. -/
def handleProcessError (errMessage : String) (rs : RunState) : RunState :=
  let rs1 := cleanupAbortListener rs
  resolveOnce rs1
    { success := false
      content := rs1.stream.fullContent
      error := some errMessage
      sessionId := rs1.stream.sessionId }

/-- Events the platform delivers to the handlers registered by
`registerProcessHandlers`: stdout data, stderr data, `close` and `error`. -/
inductive ProcEvent
  | stdoutData (chunk : List Char)
  | stderrData (chunk : List Char)
  | closeEvt (exitCode : Option Int)
  | errorEvt (message : String)
deriving DecidableEq, Repr

/-- One platform event dispatched through the handlers of
`registerProcessHandlers`: stdout chunks go through `processChunk`, stderr
chunks are accumulated verbatim into `stderrContent` and then parsed
JSON-only through `processStderrChunk`, `close` runs `handleProcessClose`
and `error` runs `handleProcessError`. -/
def stepRun (parse : String → ParseResult) (rs : RunState) :
    ProcEvent → RunState
  | ProcEvent.stdoutData chunk =>
    let p := processChunkWithBuffer parse chunk rs.buffer rs.stream false
    { rs with buffer := p.1, stream := p.2 }
  | ProcEvent.stderrData chunk =>
    let rs1 := { rs with stderrContent := rs.stderrContent ++ String.mk chunk }
    let p := processChunkWithBuffer parse chunk rs1.stderrBuffer rs1.stream true
    { rs1 with stderrBuffer := p.1, stream := p.2 }
  | ProcEvent.closeEvt exitCode => handleProcessClose parse exitCode rs
  | ProcEvent.errorEvt message => handleProcessError message rs

/-- The context created by `run` before registering handlers: all
accumulators empty, promise pending, abort listener registered. -/
def initRunState : RunState :=
  { stream := { fullContent := "", sessionId := none, events := [] }
    buffer := []
    stderrBuffer := []
    stderrContent := ""
    settled := none
    abortRegistered := true }

/-- A whole run of `SpawnCliRunner.run`, as the fold of the delivered
platform events over the initial context. -/
def runModel (parse : String → ParseResult) (events : List ProcEvent) :
    RunState :=
  events.foldl (stepRun parse) initRunState

/-- Concatenation, in order, of the payloads of the `text`-typed contents
of an event list. -/
def concatTextPayloads : List StreamContent → String
  | [] => ""
  | e :: r =>
    (if e.type = StreamContentType.text then e.content else "") ++
      concatTextPayloads r

/-- `close`/`error` events: the events whose handlers resolve the run. -/
def isTerminalEvent : ProcEvent → Bool
  | ProcEvent.closeEvt _ => true
  | ProcEvent.errorEvt _ => true
  | _ => false

/-- The line loop of `processChunkWithBuffer` with a streaming callback
that may throw (`Except.error`).  The source invokes `context.onContent`
with no surrounding `try`/`catch`, so a thrown exception propagates out of
the loop: the state reached so far is kept (the context object was already
mutated) and the remaining lines are not processed.  Returns the state
together with the propagated exception, if any. -/
def processLinesExn (parse : String → ParseResult)
    (cb : StreamContent → Except String Unit) (parseJsonOnly : Bool) :
    List (List Char) → StreamState → StreamState × Option String
  | [], st => (st, none)
  | line :: rest, st =>
    let cleanLine := jsTrim (cleanAnsiList line)
    if cleanLine = [] then processLinesExn parse cb parseJsonOnly rest st
    else if parseJsonOnly && !isLikelyJsonLine ⟨cleanLine⟩ then
      processLinesExn parse cb parseJsonOnly rest st
    else
      let parseResult := parse ⟨cleanLine⟩
      let st1 :=
        if jsTruthyStr parseResult.sessionId && !jsTruthyStr st.sessionId then
          { st with sessionId := parseResult.sessionId }
        else st
      match parseResult.content with
      | none => processLinesExn parse cb parseJsonOnly rest st1
      | some c =>
        let st2 :=
          if c.type = StreamContentType.text then
            { st1 with fullContent := st1.fullContent ++ c.content }
          else st1
        let st3 := { st2 with events := st2.events ++ [c] }
        match cb c with
        | Except.ok _ => processLinesExn parse cb parseJsonOnly rest st3
        | Except.error e => (st3, some e)

/-- `processChunkWithBuffer` with a throwing-capable callback: framing is
unchanged (the buffer was already reassigned before the loop in the
source), but an exception thrown by the callback aborts the loop and
escapes from the `data` handler. -/
def processChunkWithBufferExn (parse : String → ParseResult)
    (cb : StreamContent → Except String Unit) (chunk : List Char)
    (buffer : List Char) (st : StreamState) (parseJsonOnly : Bool) :
    List Char × StreamState × Option String :=
  let all := buffer ++ chunk
  let lines := splitNl all
  let buffer' := lines.getLastD []
  let p := processLinesExn parse cb parseJsonOnly lines.dropLast st
  (buffer', p.1, p.2)

/-- Recursive worker of the framer algebra: feeding the characters of a
chunk one at a time into a line buffer, emitting a line at each newline.
Used only in proofs, to relate split-based chunk processing across chunk
boundaries. -/
def feedAux : List Char → List Char → List (List Char) × List Char
  | buf, [] => ([], buf)
  | buf, c :: rest =>
    if c = '\n' then
      let p := feedAux [] rest
      (buf :: p.1, p.2)
    else feedAux (buf ++ [c]) rest

/-- `ModeInstructions` from `src/participants/types.ts`. -/
structure ModeInstructions where
  name : String
  content : String
deriving DecidableEq, Repr

/-- The workspace configuration values (`CCA.*` settings and
`vscode.workspace.workspaceFolders`) read by the vendor argument
builders. -/
structure CcaConfig where
  claudeModel : Option String := none
  claudeAllowedTools : List String := []
  geminiModel : Option String := none
  codexModel : Option String := none
  codexReasoningEffort : Option String := none
  codexUseWebSearch : Bool := false
  workspaceFolders : List String := []
deriving DecidableEq, Repr

/-- The `--add-dir <folder>` pairs pushed per workspace folder. -/
def addDirArgs : List String → List String
  | [] => []
  | f :: r => "--add-dir" :: f :: addDirArgs r

/-- Lower-case hexadecimal digit, for `JSON.stringify` control-character
escapes. -/
def hexDigit (n : Nat) : Char :=
  if n < 10 then Char.ofNat (48 + n) else Char.ofNat (97 + n - 10)

/-- `JSON.stringify` escaping of one character inside a string literal. -/
def jsonEscapeChar (c : Char) : List Char :=
  if c = '"' then ['\\', '"']
  else if c = '\\' then ['\\', '\\']
  else if c.toNat = 8 then ['\\', 'b']
  else if c = '\t' then ['\\', 't']
  else if c = '\n' then ['\\', 'n']
  else if c.toNat = 12 then ['\\', 'f']
  else if c = '\r' then ['\\', 'r']
  else if c.toNat < 32 then
    ['\\', 'u', '0', '0', hexDigit (c.toNat / 16), hexDigit (c.toNat % 16)]
  else [c]

/-- `JSON.stringify` escaping of a character list. -/
def jsonEscape : List Char → List Char
  | [] => []
  | c :: r => jsonEscapeChar c ++ jsonEscape r

/-- A `JSON.stringify`-rendered string literal. -/
def jsonQuoteStr (s : String) : List Char := '"' :: jsonEscape s.data ++ ['"']

/-- Wrapping in literal single quotes, as in the template literals
`` `'${modeInstructions.name}'` ``. -/
def wrapSquote (s : String) : String := ⟨squote :: s.data ++ [squote]⟩

/-- Item of the `message.content` array of a `ClaudeStreamMessage`
(`src/cli/types.ts`). -/
structure ClaudeContentItem where
  type : String
  text : Option String := none
  name : Option String := none
  content : Option String := none
deriving DecidableEq, Repr

/-- The `message` object of a `ClaudeStreamMessage`. -/
structure ClaudeMessageBody where
  content : Option (List ClaudeContentItem) := none
deriving DecidableEq, Repr

/-- `ClaudeStreamMessage` from `src/cli/types.ts` (the fields read by the
parser). -/
structure ClaudeStreamMessage where
  type : String
  session_id : Option String := none
  message : Option ClaudeMessageBody := none
deriving DecidableEq, Repr

namespace ClaudeCliRunner

/-- Whether an item fires one of the three `break`ing branches of the
Claude content loop: `tool_use`, `tool_result`, or `text` with truthy
text. -/
def itemHit (item : ClaudeContentItem) : Bool :=
  item.type = "tool_use" || item.type = "tool_result" ||
    (item.type = "text" && jsTruthyStr item.text)

/-- The if-chain applied to one item of `message.content` in
`parseLineWithSession` of `src/participants/feature/claude.ts`. -/
def itemContent (item : ClaudeContentItem) : Option StreamContent :=
  if item.type = "tool_use" then
    some { type := StreamContentType.tool_use
           content := jsOrStr item.name "tool"
           toolName := item.name }
  else if item.type = "tool_result" then
    some { type := StreamContentType.tool_result
           content := jsOrStr item.content ""
           toolName := item.name }
  else if item.type = "text" && jsTruthyStr item.text then
    some { type := StreamContentType.text, content := item.text.getD "" }
  else none

/-- The `for (const item of message.message.content)` loop with its
`break`s: the first item that fires a branch decides the content. -/
def contentLoop : List ClaudeContentItem → Option StreamContent
  | [] => none
  | item :: rest =>
    match itemContent item with
    | some c => some c
    | none => contentLoop rest

/-- `parseLineWithSession` of `src/participants/feature/claude.ts`;
`jsonParse` models `JSON.parse` + the `as ClaudeStreamMessage` cast, with
`none` for the `catch` branch. -/
def parseLineWithSession (jsonParse : String → Option ClaudeStreamMessage)
    (line : String) : ParseResult :=
  match jsonParse line with
  | none => { content := none }
  | some message =>
    let content :=
      if message.type = "assistant" then
        match message.message with
        | some body =>
          match body.content with
          | some items => contentLoop items
          | none => none
        | none => none
      else none
    { content := content, sessionId := message.session_id }

/-- `getArgumentOutputFormat` of `claude.ts`. -/
def getArgumentOutputFormat : List String :=
  ["--output-format", "stream-json", "--verbose", "--include-partial-messages"]

/-- `getArgumentAllowedTools` of `claude.ts`. -/
def getArgumentAllowedTools (cfg : CcaConfig) : List String :=
  if 0 < cfg.claudeAllowedTools.length then
    ["--allowed-tools", String.intercalate "," cfg.claudeAllowedTools]
  else []

/-- `getArgumentModel` of `claude.ts`. -/
def getArgumentModel (cfg : CcaConfig) : List String :=
  if jsTruthyStr cfg.claudeModel then ["--model", cfg.claudeModel.getD ""]
  else []

/-- `getArgumentResume` of `claude.ts`. -/
def getArgumentResume (sessionId : Option String) : List String :=
  if jsTruthyStr sessionId then ["--resume", sessionId.getD ""] else []

/-- `getArgumentDirectories` of `claude.ts`. -/
def getArgumentDirectories (cfg : CcaConfig) : List String :=
  addDirArgs cfg.workspaceFolders

/-- The `JSON.stringify`-ed agents configuration of
`getArgumentPrompt`. -/
def agentsConfigJson (mi : ModeInstructions) : String :=
  ⟨[lbrace] ++ jsonQuoteStr mi.name ++ [':'] ++ [lbrace] ++
    jsonQuoteStr "description" ++ [':'] ++ jsonQuoteStr (mi.name ++ " agent")
    ++ [','] ++ jsonQuoteStr "prompt" ++ [':'] ++ jsonQuoteStr mi.content ++
    [rbrace, rbrace]⟩

/-- `getArgumentPrompt` of `claude.ts`. -/
def getArgumentPrompt (mi : Option ModeInstructions)
    (prompt : Option String) : List String :=
  (match mi with
   | some m =>
     ["--agent", wrapSquote m.name, "--agents", wrapSquote (agentsConfigJson m)]
   | none => []) ++
  (if jsTruthyStr prompt then ["-p", prompt.getD ""] else [])

/-- `buildCliOptions` of `claude.ts`: the fixed group order
output-format, allowed-tools, model, resume, directories, prompt. -/
def buildCliOptions (cfg : CcaConfig) (resumeSessionId : Option String)
    (mi : Option ModeInstructions) (prompt : Option String) :
    String × List String :=
  ("claude",
    getArgumentOutputFormat ++ getArgumentAllowedTools cfg ++
    getArgumentModel cfg ++ getArgumentResume resumeSessionId ++
    getArgumentDirectories cfg ++ getArgumentPrompt mi prompt)

end ClaudeCliRunner

/-- `CodexItem` from `src/cli/types.ts` (the fields read by the parser). -/
structure CodexItem where
  type : String
  text : Option String := none
  command : Option String := none
  aggregated_output : Option String := none
  status : Option String := none
  tool : Option String := none
deriving DecidableEq, Repr

/-- `CodexStreamMessage` from `src/cli/types.ts`. -/
structure CodexStreamMessage where
  type : String
  thread_id : Option String := none
  item : Option CodexItem := none
deriving DecidableEq, Repr

namespace CodexCliRunner

/-- The `item.completed` if-chain of `parseLineWithSession` of
`src/participants/feature/codex.ts`. -/
def completedItemContent (item : CodexItem) : Option StreamContent :=
  if item.type = "agent_message" && jsTruthyStr item.text then
    some { type := StreamContentType.text, content := item.text.getD "" }
  else if item.type = "command_execution" then
    if item.status = some "completed" || item.status = some "failed" then
      some { type := StreamContentType.tool_result
             content := jsOrStr item.aggregated_output ""
             toolName := some "shell" }
    else none
  else if item.type = "mcp_tool_call" then
    if item.status = some "in_progress" then
      some { type := StreamContentType.tool_use
             content := jsOrStr item.tool "mcp_tool"
             toolName := item.tool }
    else if item.status = some "completed" then
      some { type := StreamContentType.tool_result
             content := ""
             toolName := item.tool }
    else none
  else if item.type = "reasoning" && jsTruthyStr item.text then
    some { type := StreamContentType.reasoning, content := item.text.getD "" }
  else none

/-- The `item.started` branch of `parseLineWithSession` of `codex.ts`. -/
def startedItemContent (item : CodexItem) : Option StreamContent :=
  if item.type = "command_execution" && jsTruthyStr item.command then
    some { type := StreamContentType.tool_use
           content := item.command.getD ""
           toolName := some "shell" }
  else none

/-- `parseLineWithSession` of `src/participants/feature/codex.ts`. -/
def parseLineWithSession (jsonParse : String → Option CodexStreamMessage)
    (line : String) : ParseResult :=
  match jsonParse line with
  | none => { content := none }
  | some message =>
    let sessionId : Option String :=
      if message.type = "thread.started" && jsTruthyStr message.thread_id then
        message.thread_id
      else none
    let c1 : Option StreamContent :=
      if message.type = "item.completed" then
        match message.item with
        | some item => completedItemContent item
        | none => none
      else none
    let content : Option StreamContent :=
      if message.type = "item.started" then
        match message.item with
        | some item =>
          match startedItemContent item with
          | some c => some c
          | none => c1
        | none => c1
      else c1
    { content := content, sessionId := sessionId }

/-- `getArgumentOutputFormat` of `codex.ts`. -/
def getArgumentOutputFormat : List String := ["--json"]

/-- `getArgumentAllowedTools` of `codex.ts`. -/
def getArgumentAllowedTools (cfg : CcaConfig) : List String :=
  if cfg.codexUseWebSearch then ["--enable", "web_search_request"] else []

/-- `getArgumentModel` of `codex.ts`. -/
def getArgumentModel (cfg : CcaConfig) : List String :=
  (if jsTruthyStr cfg.codexModel then ["-m", cfg.codexModel.getD ""] else [])
  ++
  (if jsTruthyStr cfg.codexReasoningEffort then
    ["-c", "model_reasoning_effort=\"" ++ cfg.codexReasoningEffort.getD ""
      ++ "\""]
  else [])

/-- `getArgumentResume` of `codex.ts`: the `resume` subcommand token
followed by the session id. -/
def getArgumentResume (sessionId : Option String) : List String :=
  if jsTruthyStr sessionId then ["resume", sessionId.getD ""] else []

/-- `getArgumentDirectories` of `codex.ts`: first workspace folder as
`-C`, the rest as `--add-dir`. -/
def getArgumentDirectories (cfg : CcaConfig) : List String :=
  match cfg.workspaceFolders with
  | [] => []
  | f :: rest => "-C" :: f :: addDirArgs rest

/-- The final prompt of `getArgumentPrompt` of `codex.ts`: mode
instructions, when present, are wrapped in delimiter tags and joined with
the user prompt. -/
def finalPrompt (mi : Option ModeInstructions) (prompt : Option String) :
    String :=
  match mi with
  | none => prompt.getD ""
  | some m =>
    String.intercalate "\n"
      ["<ModeInstructions>", m.name, m.content, "</ModeInstructions>", "",
        "<user_request>", prompt.getD "", "</user_request>"]

/-- `getArgumentPrompt` of `codex.ts`: one positional argument. -/
def getArgumentPrompt (mi : Option ModeInstructions)
    (prompt : Option String) : List String :=
  [finalPrompt mi prompt]

/-- `buildCliOptions` of `codex.ts`: the `exec` subcommand, then in both
branches directories, output format, allowed tools and model flags; with a
resume id the `resume` subcommand and id go after all flag groups and
before the prompt. -/
def buildCliOptions (cfg : CcaConfig) (resumeSessionId : Option String)
    (mi : Option ModeInstructions) (prompt : Option String) :
    String × List String :=
  let args :=
    if jsTruthyStr resumeSessionId then
      ["exec"] ++ getArgumentDirectories cfg ++ getArgumentOutputFormat ++
        getArgumentAllowedTools cfg ++ getArgumentModel cfg ++
        getArgumentResume resumeSessionId ++ getArgumentPrompt mi prompt
    else
      ["exec"] ++ getArgumentDirectories cfg ++ getArgumentOutputFormat ++
        getArgumentAllowedTools cfg ++ getArgumentModel cfg ++
        getArgumentPrompt mi prompt
  ("codex", args)

end CodexCliRunner

/-- `GeminiStreamMessage` from `src/cli/types.ts` (the fields read by the
parser). -/
structure GeminiStreamMessage where
  type : String
  session_id : Option String := none
  role : Option String := none
  content : Option String := none
  tool_name : Option String := none
  output : Option String := none
deriving DecidableEq, Repr

namespace GeminiCliRunner

/-- `parseLineWithSession` of `src/participants/feature/gemini.ts`. -/
def parseLineWithSession (jsonParse : String → Option GeminiStreamMessage)
    (line : String) : ParseResult :=
  match jsonParse line with
  | none => { content := none }
  | some message =>
    let content : Option StreamContent :=
      if message.type = "tool_use" then
        some { type := StreamContentType.tool_use
               content := jsOrStr message.tool_name "tool"
               toolName := message.tool_name }
      else if message.type = "tool_result" then
        some { type := StreamContentType.tool_result
               content := jsOrStr message.output ""
               toolName := message.tool_name }
      else if message.type = "message" && message.role = some "assistant"
          && jsTruthyStr message.content then
        some { type := StreamContentType.text
               content := message.content.getD "" }
      else none
    { content := content, sessionId := message.session_id }

/-- `getArgumentOutputFormat` of `gemini.ts`. -/
def getArgumentOutputFormat : List String := ["--output-format", "stream-json"]

/-- `getArgumentAllowedTools` of `gemini.ts`. -/
def getArgumentAllowedTools : List String := []

/-- `getArgumentModel` of `gemini.ts`. -/
def getArgumentModel (cfg : CcaConfig) : List String :=
  if jsTruthyStr cfg.geminiModel then ["--model", cfg.geminiModel.getD ""]
  else []

/-- `getArgumentResume` of `gemini.ts`. -/
def getArgumentResume (sessionId : Option String) : List String :=
  if jsTruthyStr sessionId then ["--resume", sessionId.getD ""] else []

/-- `getArgumentDirectories` of `gemini.ts` (disabled upstream, returns
nothing). -/
def getArgumentDirectories : List String := []

/-- The final prompt of `getArgumentPrompt` of `gemini.ts`. -/
def finalPrompt (mi : Option ModeInstructions) (prompt : Option String) :
    String :=
  match mi with
  | none => prompt.getD ""
  | some m =>
    String.intercalate "\n"
      ["<ModeInstructions>", m.name, m.content, "</ModeInstructions>", "",
        prompt.getD ""]

/-- `getArgumentPrompt` of `gemini.ts`: one positional argument. -/
def getArgumentPrompt (mi : Option ModeInstructions)
    (prompt : Option String) : List String :=
  [finalPrompt mi prompt]

/-- `buildCliOptions` of `gemini.ts`. -/
def buildCliOptions (cfg : CcaConfig) (resumeSessionId : Option String)
    (mi : Option ModeInstructions) (prompt : Option String) :
    String × List String :=
  ("gemini",
    getArgumentOutputFormat ++ getArgumentAllowedTools ++
    getArgumentModel cfg ++ getArgumentResume resumeSessionId ++
    getArgumentDirectories ++ getArgumentPrompt mi prompt)

end GeminiCliRunner

/-- `arg.replace(/\\/g, '\\\\')` of `escapeShellArg`. -/
def escWinBackslash : List Char → List Char
  | [] => []
  | c :: r => (if c = '\\' then ['\\', '\\'] else [c]) ++ escWinBackslash r

/-- `.replace(/"/g, '\\"')` of `escapeShellArg`. -/
def escWinQuote : List Char → List Char
  | [] => []
  | c :: r => (if c = '"' then ['\\', '"'] else [c]) ++ escWinQuote r

/-- The character class `[\r\n]`. -/
def isNlChar (c : Char) : Bool := c = '\r' || c = '\n'

/-- Worker for the global replacement `.replace(/[\r\n]+/g, ' ')`: the
flag records whether the scan is inside a newline run whose replacement
space has already been emitted. -/
def collapseNewlinesAux : Bool → List Char → List Char
  | _, [] => []
  | inRun, c :: r =>
    if isNlChar c then
      if inRun then collapseNewlinesAux true r
      else ' ' :: collapseNewlinesAux true r
    else c :: collapseNewlinesAux false r

/-- `.replace(/[\r\n]+/g, ' ')`: each maximal newline run becomes one
space. -/
def collapseNewlines (l : List Char) : List Char := collapseNewlinesAux false l

/-- `arg.replace(/'/g, "'\\''")` of the Unix branch of
`escapeShellArg`. -/
def escUnixQuote : List Char → List Char
  | [] => []
  | c :: r =>
    (if c = squote then [squote, '\\', squote, squote] else [c]) ++
      escUnixQuote r

/-- `escapeShellArg` of `SpawnCliRunner`; `isWin` models
`process.platform === 'win32'`. -/
def escapeShellArg (isWin : Bool) (arg : String) : String :=
  if isWin then
    ⟨'"' :: collapseNewlines (escWinQuote (escWinBackslash arg.data)) ++ ['"']⟩
  else ⟨squote :: escUnixQuote arg.data ++ [squote]⟩

/-- The argument vector assembled by `run`: every element of `args` and of
`promptArgs` is shell-escaped, options first, prompt last. -/
def runAllArgs (isWin : Bool) (args promptArgs : List String) : List String :=
  args.map (escapeShellArg isWin) ++ promptArgs.map (escapeShellArg isWin)

/-- A minimal POSIX-shell word reader used to state correctness of the
Unix escaping: single-quoted spans are taken verbatim, a backslash outside
quotes escapes the next character, everything else is literal.  The flag
is `true` inside single quotes.  Used only in theorem statements. -/
def shellParseUnixState : Bool → List Char → Option (List Char)
  | false, [] => some []
  | false, c :: rest =>
    if c = squote then shellParseUnixState true rest
    else if c = '\\' then
      match rest with
      | [] => none
      | d :: rest2 => (shellParseUnixState false rest2).map (fun t => d :: t)
    else (shellParseUnixState false rest).map (fun t => c :: t)
  | true, [] => none
  | true, c :: rest =>
    if c = squote then shellParseUnixState false rest
    else (shellParseUnixState true rest).map (fun t => c :: t)

/-- Demo parser used in witnesses: every line becomes a text event. -/
def echoTextParse : String → ParseResult := fun s =>
  { content := some { type := StreamContentType.text, content := s } }

/-- Demo parser used in witnesses: every line yields only a session id. -/
def echoSessionParse : String → ParseResult := fun s =>
  { content := none, sessionId := some s }

/-- Demo parser used in witnesses: text event plus session id per line. -/
def echoBothParse : String → ParseResult := fun s =>
  { content := some { type := StreamContentType.text, content := s }
    sessionId := some s }

/-- Demo streaming callback that always throws. -/
def throwingCallback : StreamContent → Except String Unit :=
  fun _ => Except.error "sink failure"

/-- Demo Claude assistant message with three content items: a text item
with empty (falsy) text, a text item with payload, and a trailing text
item. -/
def demoClaudeMsg : ClaudeStreamMessage :=
  { type := "assistant"
    session_id := some "sid-1"
    message := some
      { content := some
          [ { type := "text", text := some "" }
          , { type := "text", text := some "hello" }
          , { type := "text", text := some "dropped" } ] } }

/-- U+FFFD, the replacement character. -/
def replChar : Char := Char.ofNat 0xFFFD

/-- UTF-8 continuation byte, `0x80`–`0xBF`. -/
def isUtf8Cont (b : Nat) : Bool := 0x80 ≤ b && b ≤ 0xBF

/-- Worker for `utf8DecodeReplace`: WHATWG UTF-8 decoding with
replacement, the semantics of `Buffer.toString('utf8')` in Node (V8):
each maximal invalid subpart of the byte stream — a stray continuation
byte, an invalid lead byte, or a truncated/ill-continued multi-byte
sequence — becomes one U+FFFD, and a byte that fails a continuation check
is reprocessed as the start of the next sequence rather than consumed.
The fuel argument (initially the byte count) only drives structural
recursion: every call consumes at least one byte, so the fuel-exhausted
branch is unreachable. -/
def utf8DecodeGo : Nat → List Nat → List Char
  | 0, _ => []
  | _, [] => []
  | fuel + 1, b :: rest =>
    if b ≤ 0x7F then Char.ofNat b :: utf8DecodeGo fuel rest
    else if b ≤ 0xC1 then replChar :: utf8DecodeGo fuel rest
    else if b ≤ 0xDF then
      match rest with
      | [] => [replChar]
      | c1 :: rest2 =>
        if isUtf8Cont c1 then
          Char.ofNat ((b - 0xC0) * 64 + (c1 - 0x80)) :: utf8DecodeGo fuel rest2
        else replChar :: utf8DecodeGo fuel rest
    else if b ≤ 0xEF then
      match rest with
      | [] => [replChar]
      | c1 :: rest2 =>
        if (if b = 0xE0 then 0xA0 ≤ c1 && c1 ≤ 0xBF
            else if b = 0xED then 0x80 ≤ c1 && c1 ≤ 0x9F
            else isUtf8Cont c1) then
          match rest2 with
          | [] => [replChar]
          | c2 :: rest3 =>
            if isUtf8Cont c2 then
              Char.ofNat ((b - 0xE0) * 4096 + (c1 - 0x80) * 64 + (c2 - 0x80))
                :: utf8DecodeGo fuel rest3
            else replChar :: utf8DecodeGo fuel rest2
        else replChar :: utf8DecodeGo fuel rest
    else if b ≤ 0xF4 then
      match rest with
      | [] => [replChar]
      | c1 :: rest2 =>
        if (if b = 0xF0 then 0x90 ≤ c1 && c1 ≤ 0xBF
            else if b = 0xF4 then 0x80 ≤ c1 && c1 ≤ 0x8F
            else isUtf8Cont c1) then
          match rest2 with
          | [] => [replChar]
          | c2 :: rest3 =>
            if isUtf8Cont c2 then
              match rest3 with
              | [] => [replChar]
              | c3 :: rest4 =>
                if isUtf8Cont c3 then
                  Char.ofNat ((b - 0xF0) * 262144 + (c1 - 0x80) * 4096 +
                      (c2 - 0x80) * 64 + (c3 - 0x80))
                    :: utf8DecodeGo fuel rest4
                else replChar :: utf8DecodeGo fuel rest3
            else replChar :: utf8DecodeGo fuel rest2
        else replChar :: utf8DecodeGo fuel rest
    else replChar :: utf8DecodeGo fuel rest

/-- `Buffer.toString('utf8')` on one chunk of bytes: UTF-8 decoding with
U+FFFD replacement.  Each `data` event decodes its own chunk in isolation
(the source keeps no decoder state across chunks — there is no
`StringDecoder` in the repository), so a multi-byte character split
across two chunks is decoded as replacement characters. -/
def utf8DecodeReplace (bytes : List Nat) : List Char :=
  utf8DecodeGo bytes.length bytes

/-- The run model at the byte level: each stdout `data` event delivers a
`Buffer` chunk, and the handler runs `buffer.value += chunk.toString()`
on the per-chunk decode before re-splitting. -/
def runModelBytes (parse : String → ParseResult)
    (chunks : List (List Nat)) (rest : List ProcEvent) : RunState :=
  runModel parse
    (chunks.map (fun b => ProcEvent.stdoutData (utf8DecodeReplace b)) ++ rest)

/-! ### Framer algebra -/

theorem splitNl_ne_nil (l : List Char) : splitNl l ≠ [] := by
  induction l with
  | nil => simp [splitNl]
  | cons c rest ih =>
    simp only [splitNl]
    by_cases h : c = '\n'
    · simp [h]
    · simp only [h, if_false]
      cases hs : splitNl rest with
      | nil => simp
      | cons a t => simp

theorem splitNl_no_nl {b : List Char} (h : '\n' ∉ b) : splitNl b = [b] := by
  induction b with
  | nil => rfl
  | cons c rest ih =>
    have hc : c ≠ '\n' := fun hc => h (by simp [hc])
    have hr : '\n' ∉ rest := fun hm => h (List.mem_cons_of_mem _ hm)
    simp only [splitNl, hc, if_false, ih hr]

theorem splitNl_append_nl {b : List Char} (h : '\n' ∉ b) (r : List Char) :
    splitNl (b ++ '\n' :: r) = b :: splitNl r := by
  induction b with
  | nil => simp [splitNl]
  | cons c rest ih =>
    have hc : c ≠ '\n' := fun hc => h (by simp [hc])
    have hr : '\n' ∉ rest := fun hm => h (List.mem_cons_of_mem _ hm)
    simp only [List.cons_append, splitNl, hc, if_false, List.append_eq, ih hr]

theorem getLastD_irrel {α : Type} {l : List α} (h : l ≠ []) (d₁ d₂ : α) :
    l.getLastD d₁ = l.getLastD d₂ := by
  cases l with
  | nil => exact absurd rfl h
  | cons a t => rfl

theorem feedAux_eq_splitNl {buf : List Char} (h : '\n' ∉ buf)
    (s : List Char) :
    feedAux buf s =
      ((splitNl (buf ++ s)).dropLast, (splitNl (buf ++ s)).getLastD []) := by
  induction s generalizing buf with
  | nil =>
    simp [feedAux, splitNl_no_nl h]
  | cons c rest ih =>
    by_cases hc : c = '\n'
    · subst hc
      have hne := splitNl_ne_nil rest
      have hih := @ih [] (by simp)
      rw [List.nil_append] at hih
      have hstep : feedAux buf ('\n' :: rest) =
          (buf :: (feedAux [] rest).1, (feedAux [] rest).2) := by
        simp [feedAux]
      rw [hstep, hih, splitNl_append_nl h, List.dropLast_cons_of_ne_nil hne,
        List.getLastD_cons, getLastD_irrel hne buf []]
    · have hbuf : '\n' ∉ buf ++ [c] := by
        intro hm
        rcases List.mem_append.1 hm with h1 | h1
        · exact h h1
        · simp only [List.mem_singleton] at h1
          exact hc h1.symm
      have hstep : feedAux buf (c :: rest) = feedAux (buf ++ [c]) rest := by
        simp [feedAux, hc]
      rw [hstep, ih hbuf]
      simp [List.append_assoc]

theorem feedAux_append (buf a b : List Char) :
    feedAux buf (a ++ b) =
      ((feedAux buf a).1 ++ (feedAux (feedAux buf a).2 b).1,
        (feedAux (feedAux buf a).2 b).2) := by
  induction a generalizing buf with
  | nil => simp [feedAux]
  | cons c rest ih =>
    by_cases hc : c = '\n'
    · subst hc
      have h1 : feedAux buf ('\n' :: (rest ++ b)) =
          (buf :: (feedAux [] (rest ++ b)).1, (feedAux [] (rest ++ b)).2) := by
        simp [feedAux]
      have h2 : feedAux buf ('\n' :: rest) =
          (buf :: (feedAux [] rest).1, (feedAux [] rest).2) := by
        simp [feedAux]
      rw [List.cons_append, h1, ih [], h2]
      simp
    · have h1 : feedAux buf (c :: (rest ++ b)) = feedAux (buf ++ [c]) (rest ++ b) := by
        simp [feedAux, hc]
      have h2 : feedAux buf (c :: rest) = feedAux (buf ++ [c]) rest := by
        simp [feedAux, hc]
      rw [List.cons_append, h1, ih (buf ++ [c]), h2]

theorem feedAux_no_nl {buf : List Char} (h : '\n' ∉ buf) (s : List Char) :
    '\n' ∉ (feedAux buf s).2 := by
  induction s generalizing buf with
  | nil => simpa [feedAux] using h
  | cons c rest ih =>
    by_cases hc : c = '\n'
    · subst hc
      have h1 : feedAux buf ('\n' :: rest) =
          (buf :: (feedAux [] rest).1, (feedAux [] rest).2) := by
        simp [feedAux]
      rw [h1]
      exact ih (by simp)
    · have h1 : feedAux buf (c :: rest) = feedAux (buf ++ [c]) rest := by
        simp [feedAux, hc]
      rw [h1]
      refine ih ?_
      intro hm
      rcases List.mem_append.1 hm with h2 | h2
      · exact h h2
      · simp only [List.mem_singleton] at h2
        exact hc h2.symm

theorem processChunkWithBuffer_eq_feed (parse : String → ParseResult)
    (pj : Bool) {buffer : List Char} (h : '\n' ∉ buffer)
    (chunk : List Char) (st : StreamState) :
    processChunkWithBuffer parse chunk buffer st pj =
      ((feedAux buffer chunk).2,
        (feedAux buffer chunk).1.foldl (processLine parse pj) st) := by
  rw [feedAux_eq_splitNl h]
  rfl

theorem processChunkWithBuffer_append (parse : String → ParseResult)
    (pj : Bool) {buffer : List Char} (h : '\n' ∉ buffer)
    (a b : List Char) (st : StreamState) :
    processChunkWithBuffer parse (a ++ b) buffer st pj =
      processChunkWithBuffer parse b
        (processChunkWithBuffer parse a buffer st pj).1
        (processChunkWithBuffer parse a buffer st pj).2 pj := by
  have hb : '\n' ∉ (feedAux buffer a).2 := feedAux_no_nl h a
  rw [processChunkWithBuffer_eq_feed parse pj h,
    processChunkWithBuffer_eq_feed parse pj h, feedAux_append,
    processChunkWithBuffer_eq_feed parse pj hb, List.foldl_append]

theorem processChunkWithBuffer_nil (parse : String → ParseResult)
    (pj : Bool) {buffer : List Char} (h : '\n' ∉ buffer) (st : StreamState) :
    processChunkWithBuffer parse [] buffer st pj = (buffer, st) := by
  rw [processChunkWithBuffer_eq_feed parse pj h]
  simp [feedAux]

/-! ### Chunk-boundary independence of the run model -/

theorem stepRun_stdout_append (parse : String → ParseResult) {rs : RunState}
    (h : '\n' ∉ rs.buffer) (a b : List Char) :
    stepRun parse rs (ProcEvent.stdoutData (a ++ b)) =
      stepRun parse (stepRun parse rs (ProcEvent.stdoutData a))
        (ProcEvent.stdoutData b) := by
  simp only [stepRun]
  rw [processChunkWithBuffer_append parse false h]

theorem stepRun_stdout_no_nl (parse : String → ParseResult) {rs : RunState}
    (h : '\n' ∉ rs.buffer) (chunk : List Char) :
    '\n' ∉ (stepRun parse rs (ProcEvent.stdoutData chunk)).buffer := by
  simp only [stepRun]
  rw [processChunkWithBuffer_eq_feed parse false h]
  exact feedAux_no_nl h chunk

theorem stepRun_stdout_nil (parse : String → ParseResult) {rs : RunState}
    (h : '\n' ∉ rs.buffer) :
    stepRun parse rs (ProcEvent.stdoutData []) = rs := by
  simp only [stepRun]
  rw [processChunkWithBuffer_nil parse false h]

theorem foldl_stdout_join (parse : String → ParseResult) {rs : RunState}
    (h : '\n' ∉ rs.buffer) (cs : List (List Char)) :
    (cs.map ProcEvent.stdoutData).foldl (stepRun parse) rs =
      stepRun parse rs (ProcEvent.stdoutData cs.flatten) := by
  induction cs generalizing rs with
  | nil =>
    simp only [List.map_nil, List.foldl_nil, List.flatten_nil]
    exact (stepRun_stdout_nil parse h).symm
  | cons c rest ih =>
    simp only [List.map_cons, List.foldl_cons, List.flatten_cons]
    rw [ih (stepRun_stdout_no_nl parse h c), stepRun_stdout_append parse h]

/-- **C2 (counterexample to the byte-level claim).**  Chunk-boundary
independence fails for byte splits: the four bytes `E2 82 AC 0A`
(`"€\n"`) delivered as one chunk yield the event `Text "€"`, but the same
bytes split as `[E2]` and `[82 AC 0A]` — the same byte sequence, cut
inside the three-byte character — decode per chunk to replacement
characters and yield `Text "���"` instead: the two
chunkings of one byte stream produce different event sequences. -/
theorem chunk_boundary_independence_counterexample :
    ([[0xE2, 0x82, 0xAC, 0x0A]] : List (List Nat)).flatten =
      ([[0xE2], [0x82, 0xAC, 0x0A]] : List (List Nat)).flatten ∧
    (runModelBytes echoTextParse [[0xE2, 0x82, 0xAC, 0x0A]]
        [ProcEvent.closeEvt (some 0)]).stream.events ≠
      (runModelBytes echoTextParse [[0xE2], [0x82, 0xAC, 0x0A]]
        [ProcEvent.closeEvt (some 0)]).stream.events :=
  ⟨rfl, by decide⟩

/-- **C2 (amended).**  For every decoded text stream and every two ways of
splitting it into chunks at character boundaries — equivalently, for
every byte chunking in which each chunk decodes cleanly on its own —
feeding the chunks through `processChunkWithBuffer` produces a run state
that depends only on the concatenation of the chunks: every later
observation (the events emitted, the extracted session id, the final
flush of the trailing unterminated line at `close` time and the resolved
result) is identical for the two chunkings.  No text is dropped or
duplicated at chunk boundaries, and the retained partial line is prefixed
onto the next chunk before re-splitting.  Byte splits that cut through a
multi-byte UTF-8 character are excluded: the per-chunk
`Buffer.toString()` decodes them to replacement characters and changes
the emitted events (`chunk_boundary_independence_counterexample`). -/
theorem chunk_boundary_independence (parse : String → ParseResult)
    (cs₁ cs₂ : List (List Char)) (rest : List ProcEvent)
    (h : cs₁.flatten = cs₂.flatten) :
    runModel parse (cs₁.map ProcEvent.stdoutData ++ rest) =
      runModel parse (cs₂.map ProcEvent.stdoutData ++ rest) := by
  have hnl : '\n' ∉ initRunState.buffer := by simp [initRunState]
  unfold runModel
  rw [List.foldl_append, List.foldl_append,
    foldl_stdout_join parse hnl, foldl_stdout_join parse hnl, h]

/-- Witness for C2: the stream `"alpha\nbravo"` (note: no trailing
newline) split as three chunks versus one chunk, followed by `close 0`,
yields the same resolved state, with both lines parsed. -/
theorem chunk_boundary_independence_witness :
    runModel echoBothParse
        ([("alp".data : List Char), "ha\nbr".data, "avo".data].map
          ProcEvent.stdoutData ++ [ProcEvent.closeEvt (some 0)]) =
      runModel echoBothParse
        ([("alpha\nbravo".data : List Char)].map ProcEvent.stdoutData ++
          [ProcEvent.closeEvt (some 0)]) :=
  chunk_boundary_independence echoBothParse _ _ _ (by decide)

/-! ### Stream-state invariants -/

theorem concatTextPayloads_append (a b : List StreamContent) :
    concatTextPayloads (a ++ b) =
      concatTextPayloads a ++ concatTextPayloads b := by
  induction a with
  | nil => simp [concatTextPayloads]
  | cons e r ih => simp [concatTextPayloads, ih, String.append_assoc]

theorem processLine_fullContent (parse : String → ParseResult) (pj : Bool)
    (st : StreamState) (line : List Char)
    (h : st.fullContent = concatTextPayloads st.events) :
    (processLine parse pj st line).fullContent =
      concatTextPayloads (processLine parse pj st line).events := by
  simp only [processLine]
  split
  · exact h
  split
  · exact h
  have h1 : ∀ st1 : StreamState,
      st1.fullContent = concatTextPayloads st1.events →
      ∀ o : Option StreamContent,
        (match o with
          | none => st1
          | some c =>
            let st2 :=
              if c.type = StreamContentType.text then
                { st1 with fullContent := st1.fullContent ++ c.content }
              else st1
            { st2 with events := st2.events ++ [c] } : StreamState).fullContent
          =
          concatTextPayloads
            (match o with
              | none => st1
              | some c =>
                let st2 :=
                  if c.type = StreamContentType.text then
                    { st1 with fullContent := st1.fullContent ++ c.content }
                  else st1
                { st2 with events := st2.events ++ [c] } : StreamState).events := by
    intro st1 h1 o
    cases o with
    | none => exact h1
    | some c =>
      by_cases ht : c.type = StreamContentType.text <;>
        simp [ht, concatTextPayloads_append, concatTextPayloads, h1,
          String.append_empty, String.append_assoc]
  apply h1
  split <;> simp [h]

theorem jsTruthyStr_ne_empty {o : Option String} (h : jsTruthyStr o = true) :
    o ≠ some "" := by
  cases o with
  | none => simp
  | some s =>
    simp only [jsTruthyStr, decide_eq_true_eq] at h
    simpa using h

theorem jsTruthyStr_some {s : String} (h : s ≠ "") :
    jsTruthyStr (some s) = true := by
  simp [jsTruthyStr, h]

theorem processLine_session_persist (parse : String → ParseResult)
    (pj : Bool) (st : StreamState) (line : List Char)
    (h : jsTruthyStr st.sessionId = true) :
    (processLine parse pj st line).sessionId = st.sessionId := by
  simp only [processLine]
  split
  · rfl
  split
  · rfl
  simp only [h, Bool.not_true, Bool.and_false, Bool.false_eq_true, if_false]
  split
  · rfl
  split <;> rfl

theorem processLine_session_ne (parse : String → ParseResult) (pj : Bool)
    (st : StreamState) (line : List Char) (h : st.sessionId ≠ some "") :
    (processLine parse pj st line).sessionId ≠ some "" := by
  simp only [processLine]
  split
  · exact h
  split
  · exact h
  split
  · split
    · rename_i hguard
      exact jsTruthyStr_ne_empty (Bool.and_elim_left hguard)
    · exact h
  · rename_i c heq
    split
    · simp only []
      split
      · rename_i hguard
        exact jsTruthyStr_ne_empty (Bool.and_elim_left hguard)
      · exact h
    · simp only []
      split
      · rename_i hguard
        exact jsTruthyStr_ne_empty (Bool.and_elim_left hguard)
      · exact h

theorem processChunkWithBuffer_snd (parse : String → ParseResult)
    (chunk buffer : List Char) (st : StreamState) (pj : Bool) :
    (processChunkWithBuffer parse chunk buffer st pj).2 =
      (splitNl (buffer ++ chunk)).dropLast.foldl (processLine parse pj) st :=
  rfl

theorem foldl_processLine_fullContent (parse : String → ParseResult)
    (pj : Bool) (lines : List (List Char)) (st : StreamState)
    (h : st.fullContent = concatTextPayloads st.events) :
    (lines.foldl (processLine parse pj) st).fullContent =
      concatTextPayloads (lines.foldl (processLine parse pj) st).events := by
  induction lines generalizing st with
  | nil => exact h
  | cons l r ih => exact ih _ (processLine_fullContent parse pj st l h)

theorem foldl_processLine_session_persist (parse : String → ParseResult)
    (pj : Bool) (lines : List (List Char)) (st : StreamState)
    (h : jsTruthyStr st.sessionId = true) :
    (lines.foldl (processLine parse pj) st).sessionId = st.sessionId := by
  induction lines generalizing st with
  | nil => rfl
  | cons l r ih =>
    have h2 := processLine_session_persist parse pj st l h
    rw [List.foldl_cons]
    rw [ih (processLine parse pj st l) (by rw [h2]; exact h), h2]

theorem foldl_processLine_session_ne (parse : String → ParseResult)
    (pj : Bool) (lines : List (List Char)) (st : StreamState)
    (h : st.sessionId ≠ some "") :
    (lines.foldl (processLine parse pj) st).sessionId ≠ some "" := by
  induction lines generalizing st with
  | nil => exact h
  | cons l r ih => exact ih _ (processLine_session_ne parse pj st l h)

theorem flush_buffer (parse : String → ParseResult) (rs : RunState) :
    (processRemainingBuffer parse rs).buffer = rs.buffer := by
  simp only [processRemainingBuffer]
  split <;> rfl

theorem flush_stderrBuffer (parse : String → ParseResult) (rs : RunState) :
    (processRemainingBuffer parse rs).stderrBuffer = rs.stderrBuffer := by
  simp only [processRemainingBuffer]
  split <;> rfl

theorem flush_stderrContent (parse : String → ParseResult) (rs : RunState) :
    (processRemainingBuffer parse rs).stderrContent = rs.stderrContent := by
  simp only [processRemainingBuffer]
  split <;> rfl

theorem flush_settled (parse : String → ParseResult) (rs : RunState) :
    (processRemainingBuffer parse rs).settled = rs.settled := by
  simp only [processRemainingBuffer]
  split <;> rfl

theorem flush_abort (parse : String → ParseResult) (rs : RunState) :
    (processRemainingBuffer parse rs).abortRegistered = rs.abortRegistered := by
  simp only [processRemainingBuffer]
  split <;> rfl

theorem flush_session_persist (parse : String → ParseResult) (rs : RunState)
    (h : jsTruthyStr rs.stream.sessionId = true) :
    (processRemainingBuffer parse rs).stream.sessionId =
      rs.stream.sessionId := by
  simp only [processRemainingBuffer]
  split
  · rfl
  simp only [h, Bool.not_true, Bool.and_false, Bool.false_eq_true, if_false]
  split
  · rfl
  split <;> rfl

theorem flush_session_ne (parse : String → ParseResult) (rs : RunState)
    (h : rs.stream.sessionId ≠ some "") :
    (processRemainingBuffer parse rs).stream.sessionId ≠ some "" := by
  simp only [processRemainingBuffer]
  split
  · exact h
  split
  · split
    · rename_i hguard
      exact jsTruthyStr_ne_empty (Bool.and_elim_left hguard)
    · exact h
  · split
    · simp only []
      split
      · rename_i hguard
        exact jsTruthyStr_ne_empty (Bool.and_elim_left hguard)
      · exact h
    · simp only []
      split
      · rename_i hguard
        exact jsTruthyStr_ne_empty (Bool.and_elim_left hguard)
      · exact h

theorem flush_fullContent (parse : String → ParseResult) (rs : RunState)
    (h : rs.stream.fullContent = concatTextPayloads rs.stream.events) :
    (processRemainingBuffer parse rs).stream.fullContent =
      concatTextPayloads (processRemainingBuffer parse rs).stream.events := by
  simp only [processRemainingBuffer]
  split
  · exact h
  have h1 : ∀ st1 : StreamState,
      st1.fullContent = concatTextPayloads st1.events →
      ∀ o : Option StreamContent,
        (match o with
          | none => st1
          | some c =>
            let st2 :=
              if c.type = StreamContentType.text then
                { st1 with fullContent := st1.fullContent ++ c.content }
              else st1
            { st2 with events := st2.events ++ [c] } : StreamState).fullContent
          =
          concatTextPayloads
            (match o with
              | none => st1
              | some c =>
                let st2 :=
                  if c.type = StreamContentType.text then
                    { st1 with fullContent := st1.fullContent ++ c.content }
                  else st1
                { st2 with events := st2.events ++ [c] } :
              StreamState).events := by
    intro st1 h1 o
    cases o with
    | none => exact h1
    | some c =>
      by_cases ht : c.type = StreamContentType.text <;>
        simp [ht, concatTextPayloads_append, concatTextPayloads, h1,
          String.append_empty, String.append_assoc]
  apply h1
  split <;> simp [h]

theorem resolveOnce_stream (rs : RunState) (r : CliResult) :
    (resolveOnce rs r).stream = rs.stream := by
  cases h : rs.settled <;> simp [resolveOnce, h]

theorem resolveOnce_buffer (rs : RunState) (r : CliResult) :
    (resolveOnce rs r).buffer = rs.buffer := by
  cases h : rs.settled <;> simp [resolveOnce, h]

theorem resolveOnce_abort (rs : RunState) (r : CliResult) :
    (resolveOnce rs r).abortRegistered = rs.abortRegistered := by
  cases h : rs.settled <;> simp [resolveOnce, h]

theorem resolveOnce_settled_none {rs : RunState} (h : rs.settled = none)
    (r : CliResult) :
    (resolveOnce rs r).settled = some (r, rs.stream.events) := by
  simp [resolveOnce, h]

theorem resolveOnce_settled_some {rs : RunState}
    {p : CliResult × List StreamContent} (h : rs.settled = some p)
    (r : CliResult) : (resolveOnce rs r).settled = some p := by
  simp [resolveOnce, h]

/-! ### Step-level lemmas on the run model -/

theorem stepRun_settled_some (parse : String → ParseResult) {rs : RunState}
    {p : CliResult × List StreamContent} (h : rs.settled = some p)
    (e : ProcEvent) : (stepRun parse rs e).settled = some p := by
  cases e with
  | stdoutData chunk => simpa [stepRun] using h
  | stderrData chunk => simpa [stepRun] using h
  | closeEvt code =>
    simp only [stepRun, handleProcessClose]
    have hset :
        (processRemainingBuffer parse (cleanupAbortListener rs)).settled =
          some p := by
      rw [flush_settled]
      exact h
    split
    · exact resolveOnce_settled_some hset _
    · exact resolveOnce_settled_some hset _
  | errorEvt m =>
    simp only [stepRun, handleProcessError]
    exact resolveOnce_settled_some (by simpa [cleanupAbortListener] using h) _

theorem stepRun_settled_data (parse : String → ParseResult) (rs : RunState)
    (e : ProcEvent) (h : isTerminalEvent e = false) :
    (stepRun parse rs e).settled = rs.settled := by
  cases e with
  | stdoutData chunk => rfl
  | stderrData chunk => rfl
  | closeEvt code => simp [isTerminalEvent] at h
  | errorEvt m => simp [isTerminalEvent] at h

theorem resolveOnce_settle_shape (rs1 : RunState) (hset : rs1.settled = none)
    (r : CliResult) (h2 : r.sessionId = rs1.stream.sessionId)
    (h3 : r.content = rs1.stream.fullContent) :
    ∃ rr : CliResult,
      (resolveOnce rs1 r).settled =
        some (rr, (resolveOnce rs1 r).stream.events) ∧
      rr.sessionId = (resolveOnce rs1 r).stream.sessionId ∧
      rr.content = (resolveOnce rs1 r).stream.fullContent := by
  refine ⟨r, ?_, ?_, ?_⟩
  · rw [resolveOnce_stream]
    exact resolveOnce_settled_none hset r
  · rw [resolveOnce_stream]
    exact h2
  · rw [resolveOnce_stream]
    exact h3

theorem stepRun_terminal_settles (parse : String → ParseResult)
    (rs : RunState) (e : ProcEvent) (hterm : isTerminalEvent e = true)
    (h : rs.settled = none) :
    ∃ r : CliResult,
      (stepRun parse rs e).settled =
        some (r, (stepRun parse rs e).stream.events) ∧
      r.sessionId = (stepRun parse rs e).stream.sessionId ∧
      r.content = (stepRun parse rs e).stream.fullContent := by
  cases e with
  | stdoutData chunk => simp [isTerminalEvent] at hterm
  | stderrData chunk => simp [isTerminalEvent] at hterm
  | closeEvt code =>
    simp only [stepRun, handleProcessClose]
    have hset :
        (processRemainingBuffer parse (cleanupAbortListener rs)).settled =
          none := by
      rw [flush_settled]
      exact h
    split
    · exact resolveOnce_settle_shape _ hset _ rfl rfl
    · exact resolveOnce_settle_shape _ hset _ rfl rfl
  | errorEvt m =>
    simp only [stepRun, handleProcessError]
    exact resolveOnce_settle_shape _ (by simpa [cleanupAbortListener] using h)
      _ rfl rfl

theorem stepRun_new_settle (parse : String → ParseResult) (rs : RunState)
    (e : ProcEvent) (h0 : rs.settled = none)
    {p : CliResult × List StreamContent}
    (h1 : (stepRun parse rs e).settled = some p) :
    p.1.sessionId = (stepRun parse rs e).stream.sessionId ∧
    p.2 = (stepRun parse rs e).stream.events ∧
    p.1.content = (stepRun parse rs e).stream.fullContent := by
  by_cases hterm : isTerminalEvent e = true
  · obtain ⟨r, hr1, hr2, hr3⟩ := stepRun_terminal_settles parse rs e hterm h0
    rw [hr1] at h1
    cases h1
    exact ⟨hr2, rfl, hr3⟩
  · rw [stepRun_settled_data parse rs e (by simpa using hterm), h0] at h1
    cases h1

theorem stepRun_session_persist (parse : String → ParseResult)
    (rs : RunState) (e : ProcEvent)
    (h : jsTruthyStr rs.stream.sessionId = true) :
    (stepRun parse rs e).stream.sessionId = rs.stream.sessionId := by
  cases e with
  | stdoutData chunk =>
    show ((processChunkWithBuffer parse chunk rs.buffer rs.stream
      false).2).sessionId = rs.stream.sessionId
    rw [processChunkWithBuffer_snd]
    exact foldl_processLine_session_persist parse false _ rs.stream h
  | stderrData chunk =>
    show ((processChunkWithBuffer parse chunk rs.stderrBuffer rs.stream
      true).2).sessionId = rs.stream.sessionId
    rw [processChunkWithBuffer_snd]
    exact foldl_processLine_session_persist parse true _ rs.stream h
  | closeEvt code =>
    simp only [stepRun, handleProcessClose]
    split <;>
      rw [resolveOnce_stream, flush_session_persist parse _ (by exact h)] <;>
      rfl
  | errorEvt m =>
    simp only [stepRun, handleProcessError]
    rw [resolveOnce_stream]
    rfl

theorem stepRun_session_ne (parse : String → ParseResult) (rs : RunState)
    (e : ProcEvent) (h : rs.stream.sessionId ≠ some "") :
    (stepRun parse rs e).stream.sessionId ≠ some "" := by
  cases e with
  | stdoutData chunk =>
    show ((processChunkWithBuffer parse chunk rs.buffer rs.stream
      false).2).sessionId ≠ some ""
    rw [processChunkWithBuffer_snd]
    exact foldl_processLine_session_ne parse false _ rs.stream h
  | stderrData chunk =>
    show ((processChunkWithBuffer parse chunk rs.stderrBuffer rs.stream
      true).2).sessionId ≠ some ""
    rw [processChunkWithBuffer_snd]
    exact foldl_processLine_session_ne parse true _ rs.stream h
  | closeEvt code =>
    simp only [stepRun, handleProcessClose]
    split <;> rw [resolveOnce_stream] <;>
      exact flush_session_ne parse _ (by exact h)
  | errorEvt m =>
    simp only [stepRun, handleProcessError]
    rw [resolveOnce_stream]
    exact h

theorem stepRun_fullContent (parse : String → ParseResult) (rs : RunState)
    (e : ProcEvent)
    (h : rs.stream.fullContent = concatTextPayloads rs.stream.events) :
    (stepRun parse rs e).stream.fullContent =
      concatTextPayloads (stepRun parse rs e).stream.events := by
  cases e with
  | stdoutData chunk =>
    show ((processChunkWithBuffer parse chunk rs.buffer rs.stream
        false).2).fullContent = _
    rw [processChunkWithBuffer_snd]
    exact foldl_processLine_fullContent parse false _ rs.stream h
  | stderrData chunk =>
    show ((processChunkWithBuffer parse chunk rs.stderrBuffer rs.stream
        true).2).fullContent = _
    rw [processChunkWithBuffer_snd]
    exact foldl_processLine_fullContent parse true _ rs.stream h
  | closeEvt code =>
    simp only [stepRun, handleProcessClose]
    split <;> rw [resolveOnce_stream] <;>
      exact flush_fullContent parse _ (by exact h)
  | errorEvt m =>
    simp only [stepRun, handleProcessError]
    rw [resolveOnce_stream]
    exact h

theorem stepRun_settledInv (parse : String → ParseResult) (rs : RunState)
    (e : ProcEvent)
    (hstream : rs.stream.fullContent = concatTextPayloads rs.stream.events)
    (hsettled : ∀ r snap, rs.settled = some (r, snap) →
      r.content = concatTextPayloads snap) :
    ∀ r snap, (stepRun parse rs e).settled = some (r, snap) →
      r.content = concatTextPayloads snap := by
  intro r snap hsome
  cases hset : rs.settled with
  | some p =>
    rw [stepRun_settled_some parse hset e] at hsome
    cases hsome
    exact hsettled _ _ hset
  | none =>
    obtain ⟨h1, h2, h3⟩ := stepRun_new_settle parse rs e hset hsome
    simp only at h2 h3
    rw [h3, h2]
    exact stepRun_fullContent parse rs e hstream

theorem stepRun_terminal_abort (parse : String → ParseResult)
    (rs : RunState) (e : ProcEvent) (hterm : isTerminalEvent e = true) :
    (stepRun parse rs e).abortRegistered = false := by
  cases e with
  | stdoutData chunk => simp [isTerminalEvent] at hterm
  | stderrData chunk => simp [isTerminalEvent] at hterm
  | closeEvt code =>
    simp only [stepRun, handleProcessClose]
    split <;> rw [resolveOnce_abort, flush_abort] <;> rfl
  | errorEvt m =>
    simp only [stepRun, handleProcessError]
    rw [resolveOnce_abort]
    rfl

theorem stepRun_abort_false (parse : String → ParseResult) (rs : RunState)
    (e : ProcEvent) (h : rs.abortRegistered = false) :
    (stepRun parse rs e).abortRegistered = false := by
  by_cases hterm : isTerminalEvent e = true
  · exact stepRun_terminal_abort parse rs e hterm
  · cases e with
    | stdoutData chunk => simpa [stepRun] using h
    | stderrData chunk => simpa [stepRun] using h
    | closeEvt code => simp [isTerminalEvent] at hterm
    | errorEvt m => simp [isTerminalEvent] at hterm

/-! ### Whole-run inductions -/

theorem foldl_stepRun_settled_some (parse : String → ParseResult)
    (evs : List ProcEvent) {rs : RunState}
    {p : CliResult × List StreamContent} (h : rs.settled = some p) :
    (evs.foldl (stepRun parse) rs).settled = some p := by
  induction evs generalizing rs with
  | nil => exact h
  | cons e r ih => exact ih (stepRun_settled_some parse h e)

theorem foldl_stepRun_settled_data (parse : String → ParseResult)
    (evs : List ProcEvent) (rs : RunState)
    (h : ∀ e ∈ evs, isTerminalEvent e = false) :
    (evs.foldl (stepRun parse) rs).settled = rs.settled := by
  induction evs generalizing rs with
  | nil => rfl
  | cons e r ih =>
    rw [List.foldl_cons, ih _ fun x hx => h x (List.mem_cons_of_mem _ hx),
      stepRun_settled_data parse rs e (h e (List.mem_cons_self _ _))]

theorem foldl_stepRun_session_persist (parse : String → ParseResult)
    (evs : List ProcEvent) {rs : RunState}
    (h : jsTruthyStr rs.stream.sessionId = true) :
    (evs.foldl (stepRun parse) rs).stream.sessionId =
      rs.stream.sessionId := by
  induction evs generalizing rs with
  | nil => rfl
  | cons e r ih =>
    have h2 := stepRun_session_persist parse rs e h
    rw [List.foldl_cons, ih (by rw [h2]; exact h), h2]

theorem foldl_stepRun_session_ne (parse : String → ParseResult)
    (evs : List ProcEvent) {rs : RunState}
    (h : rs.stream.sessionId ≠ some "") :
    (evs.foldl (stepRun parse) rs).stream.sessionId ≠ some "" := by
  induction evs generalizing rs with
  | nil => exact h
  | cons e r ih => exact ih (stepRun_session_ne parse rs e h)

theorem foldl_stepRun_abort_false (parse : String → ParseResult)
    (evs : List ProcEvent) {rs : RunState} (h : rs.abortRegistered = false) :
    (evs.foldl (stepRun parse) rs).abortRegistered = false := by
  induction evs generalizing rs with
  | nil => exact h
  | cons e r ih => exact ih (stepRun_abort_false parse rs e h)

theorem foldl_stepRun_contentInv (parse : String → ParseResult)
    (evs : List ProcEvent) :
    ∀ rs : RunState,
      rs.stream.fullContent = concatTextPayloads rs.stream.events →
      (∀ r snap, rs.settled = some (r, snap) →
        r.content = concatTextPayloads snap) →
      (evs.foldl (stepRun parse) rs).stream.fullContent =
          concatTextPayloads (evs.foldl (stepRun parse) rs).stream.events ∧
        ∀ r snap, (evs.foldl (stepRun parse) rs).settled = some (r, snap) →
          r.content = concatTextPayloads snap := by
  induction evs with
  | nil => exact fun rs h1 h2 => ⟨h1, h2⟩
  | cons e r ih =>
    intro rs h1 h2
    exact ih _ (stepRun_fullContent parse rs e h1)
      (stepRun_settledInv parse rs e h1 h2)

theorem foldl_stepRun_first_settle (parse : String → ParseResult) :
    ∀ (evs : List ProcEvent) (rs : RunState) (s : String), s ≠ "" →
      rs.stream.sessionId = some s → rs.settled = none →
      ∀ r snap, (evs.foldl (stepRun parse) rs).settled = some (r, snap) →
        r.sessionId = some s := by
  intro evs
  induction evs with
  | nil =>
    intro rs s hs hsid hnone r snap hsome
    rw [List.foldl_nil, hnone] at hsome
    cases hsome
  | cons e rest ih =>
    intro rs s hs hsid hnone r snap hsome
    rw [List.foldl_cons] at hsome
    cases hset : (stepRun parse rs e).settled with
    | none =>
      refine ih _ s hs ?_ hset r snap hsome
      rw [stepRun_session_persist parse rs e
        (by rw [hsid]; exact jsTruthyStr_some hs), hsid]
    | some p =>
      rw [foldl_stepRun_settled_some parse rest hset] at hsome
      cases hsome
      have h5 := (stepRun_new_settle parse rs e hnone hset).1
      rw [stepRun_session_persist parse rs e
        (by rw [hsid]; exact jsTruthyStr_some hs), hsid] at h5
      simpa using h5

/-! ### Claim theorems for the run model -/

/-- **C1.**  For every run, the `content` field of the resolved
`CliResult` equals the concatenation, in delivery order, of the payloads
of exactly the `text`-typed contents among the events that were forwarded
to the streaming callback during the run; `tool_use`, `tool_result` and
`reasoning` events contribute nothing. -/
theorem run_content_eq_text_concat (parse : String → ParseResult)
    (evs : List ProcEvent) (r : CliResult) (snap : List StreamContent)
    (h : (runModel parse evs).settled = some (r, snap)) :
    r.content = concatTextPayloads snap :=
  (foldl_stepRun_contentInv parse evs initRunState rfl
    (by intro r' snap' h'; simp [initRunState] at h')).2 r snap h

/-- Witness for C1 on a concrete run. -/
theorem run_content_eq_text_concat_witness :
    ({ success := true, content := "hi", error := none, sessionId := none } :
        CliResult).content =
      concatTextPayloads
        [{ type := StreamContentType.text, content := "hi",
            toolName := none }] :=
  run_content_eq_text_concat echoTextParse
    [ProcEvent.stdoutData "hi\n".data, ProcEvent.closeEvt (some 0)] _ _
    (by decide)

/-- **C4.**  Within one run the extracted session id is first-writer-wins:
once the stream state holds a session id, it survives every later event
(including the final buffer flush), the resolved `CliResult` carries it,
and a single chunk-processing step never overwrites an already-present
(truthy) session id. -/
theorem session_id_first_writer_wins (parse : String → ParseResult)
    (evs1 evs2 : List ProcEvent) (s : String) (r : CliResult)
    (snap : List StreamContent) (st : StreamState)
    (chunk buffer : List Char) (pj : Bool) (s' : String)
    (h : (runModel parse evs1).stream.sessionId = some s)
    (hs' : s' ≠ "") (hst : st.sessionId = some s') :
    (runModel parse (evs1 ++ evs2)).stream.sessionId = some s ∧
    ((runModel parse evs1).settled = none →
      (runModel parse (evs1 ++ evs2)).settled = some (r, snap) →
      r.sessionId = some s) ∧
    ((processChunkWithBuffer parse chunk buffer st pj).2).sessionId =
      some s' := by
  have hne : (runModel parse evs1).stream.sessionId ≠ some "" :=
    foldl_stepRun_session_ne parse evs1 (by simp [initRunState])
  have hs : s ≠ "" := by
    intro he
    rw [he] at h
    exact hne h
  have htruthy : jsTruthyStr (runModel parse evs1).stream.sessionId = true :=
    by rw [h]; exact jsTruthyStr_some hs
  have hfold : runModel parse (evs1 ++ evs2) =
      evs2.foldl (stepRun parse) (runModel parse evs1) := by
    unfold runModel
    rw [List.foldl_append]
  refine ⟨?_, ?_, ?_⟩
  · rw [hfold, foldl_stepRun_session_persist parse evs2 htruthy, h]
  · intro hnone hsome
    rw [hfold] at hsome
    exact foldl_stepRun_first_settle parse evs2 _ s hs h hnone r snap hsome
  · rw [processChunkWithBuffer_snd]
    rw [foldl_processLine_session_persist parse pj _ st
      (by rw [hst]; exact jsTruthyStr_some hs'), hst]

/-- Witness for C4: the id revealed by the first line survives a later
line carrying a different id, and reaches the resolved result. -/
theorem session_id_first_writer_wins_witness :
    (runModel echoSessionParse
        ([ProcEvent.stdoutData "abc\n".data] ++
          [ProcEvent.stdoutData "zzz\n".data,
            ProcEvent.closeEvt (some 0)])).stream.sessionId = some "abc" ∧
    ((runModel echoSessionParse
        [ProcEvent.stdoutData "abc\n".data]).settled = none →
      (runModel echoSessionParse
        ([ProcEvent.stdoutData "abc\n".data] ++
          [ProcEvent.stdoutData "zzz\n".data,
            ProcEvent.closeEvt (some 0)])).settled =
        some ({ success := true, content := "", error := none,
                sessionId := some "abc" }, []) →
      ({ success := true, content := "", error := none,
          sessionId := some "abc" } : CliResult).sessionId = some "abc") ∧
    ((processChunkWithBuffer echoSessionParse "zzz\n".data []
        { fullContent := "", sessionId := some "X", events := [] }
        false).2).sessionId = some "X" :=
  session_id_first_writer_wins echoSessionParse
    [ProcEvent.stdoutData "abc\n".data]
    [ProcEvent.stdoutData "zzz\n".data, ProcEvent.closeEvt (some 0)]
    "abc" _ _ _ "zzz\n".data [] false "X" (by decide) (by decide) rfl

/-- **C9.**  Exactly one resolution per run: the first `close`/`error`
event settles the promise, any further terminal events leave the settled
value unchanged, and the abort-listener cleanup leaves the listener
deregistered no matter how many resolution paths execute. -/
theorem single_resolution (parse : String → ParseResult)
    (evs1 : List ProcEvent) (t : ProcEvent) (evs2 : List ProcEvent)
    (hterm : isTerminalEvent t = true)
    (hdata : ∀ e ∈ evs1, isTerminalEvent e = false) :
    (runModel parse (evs1 ++ t :: evs2)).settled =
      (runModel parse (evs1 ++ [t])).settled ∧
    ((runModel parse (evs1 ++ [t])).settled).isSome = true ∧
    (runModel parse (evs1 ++ t :: evs2)).abortRegistered = false := by
  have hmidnone : (runModel parse evs1).settled = none := by
    unfold runModel
    rw [foldl_stepRun_settled_data parse evs1 _ hdata]
    rfl
  have h1 : runModel parse (evs1 ++ t :: evs2) =
      evs2.foldl (stepRun parse)
        (stepRun parse (runModel parse evs1) t) := by
    unfold runModel
    rw [List.foldl_append, List.foldl_cons]
  have h2 : runModel parse (evs1 ++ [t]) =
      stepRun parse (runModel parse evs1) t := by
    unfold runModel
    rw [List.foldl_append, List.foldl_cons, List.foldl_nil]
  obtain ⟨r, hr1, -, -⟩ :=
    stepRun_terminal_settles parse (runModel parse evs1) t hterm hmidnone
  refine ⟨?_, ?_, ?_⟩
  · rw [h1, h2, foldl_stepRun_settled_some parse evs2 hr1, hr1]
  · rw [h2, hr1]
    rfl
  · rw [h1]
    exact foldl_stepRun_abort_false parse evs2
      (stepRun_terminal_abort parse _ t hterm)

/-- Witness for C9: a `close 0` followed by a spurious `error` and a
second `close` does not change the settled result. -/
theorem single_resolution_witness :
    (runModel echoTextParse
        ([ProcEvent.stdoutData "x\n".data] ++
          ProcEvent.closeEvt (some 0) ::
            [ProcEvent.errorEvt "late", ProcEvent.closeEvt (some 1)])).settled
        =
      (runModel echoTextParse
        ([ProcEvent.stdoutData "x\n".data] ++
          [ProcEvent.closeEvt (some 0)])).settled ∧
    ((runModel echoTextParse
        ([ProcEvent.stdoutData "x\n".data] ++
          [ProcEvent.closeEvt (some 0)])).settled).isSome = true ∧
    (runModel echoTextParse
        ([ProcEvent.stdoutData "x\n".data] ++
          ProcEvent.closeEvt (some 0) ::
            [ProcEvent.errorEvt "late",
              ProcEvent.closeEvt (some 1)])).abortRegistered = false :=
  single_resolution echoTextParse [ProcEvent.stdoutData "x\n".data]
    (ProcEvent.closeEvt (some 0))
    [ProcEvent.errorEvt "late", ProcEvent.closeEvt (some 1)] rfl
    (by decide)

/-! ### Exit-code reconciliation -/

theorem infix_mid (a b c : String) : b.data <:+: (a ++ b ++ c).data :=
  ⟨a.data, c.data, by simp [String.data_append]⟩

theorem flushCleanup_stderrContent (parse : String → ParseResult)
    (rs : RunState) :
    (processRemainingBuffer parse (cleanupAbortListener rs)).stderrContent =
      rs.stderrContent := by
  rw [flush_stderrContent]
  rfl

/-- **C5.**  `handleProcessClose` resolves success exactly on exit code 0;
for every other exit code (`null` included, with no special-casing of
particular non-zero codes) it resolves failure with an error string that
contains the rendered exit code and, whenever stderr text was captured,
that stderr text; the accumulated content and extracted session id of the
post-flush state are carried into the result in both cases. -/
theorem exit_code_reconciliation (parse : String → ParseResult)
    (rs : RunState) (code : Option Int) (r : CliResult)
    (snap : List StreamContent) (h : rs.settled = none)
    (hsome : (handleProcessClose parse code rs).settled = some (r, snap)) :
    (code = some 0 → r.success = true ∧ r.error = none) ∧
    (code ≠ some 0 → r.success = false ∧
      (exitCodeString code).data <:+: (r.error.getD "").data ∧
      (rs.stderrContent ≠ "" →
        rs.stderrContent.data <:+: (r.error.getD "").data)) ∧
    r.content =
      (processRemainingBuffer parse
        (cleanupAbortListener rs)).stream.fullContent ∧
    r.sessionId =
      (processRemainingBuffer parse
        (cleanupAbortListener rs)).stream.sessionId := by
  have hset :
      (processRemainingBuffer parse (cleanupAbortListener rs)).settled =
        none := by
    rw [flush_settled]
    exact h
  simp only [handleProcessClose] at hsome
  split at hsome
  · rename_i hcode
    rw [resolveOnce_settled_none hset] at hsome
    cases hsome
    exact ⟨fun _ => ⟨rfl, rfl⟩, fun hc => absurd hcode hc, rfl, rfl⟩
  · rename_i hcode
    rw [resolveOnce_settled_none hset] at hsome
    cases hsome
    refine ⟨fun hc => absurd hc hcode, fun _ => ⟨rfl, ?_, ?_⟩, rfl, rfl⟩
    · exact infix_mid "Process exited with code " (exitCodeString code) _
    · intro hne
      rw [flushCleanup_stderrContent parse rs]
      rw [if_pos (jsTruthyStr_some hne)]
      exact ⟨("Process exited with code " ++ exitCodeString code ++
        "\nStderr: ").data, [],
        by simp [String.data_append, List.append_assoc]⟩

/-- Witness for C5: a run that only captured `"boom"` on stderr and then
closes with exit code 1. -/
theorem exit_code_reconciliation_witness :
    ((some 1 : Option Int) = some 0 →
      ({ success := false, content := "",
          error := some "Process exited with code 1\nStderr: boom",
          sessionId := none } : CliResult).success = true ∧
      ({ success := false, content := "",
          error := some "Process exited with code 1\nStderr: boom",
          sessionId := none } : CliResult).error = none) ∧
    ((some 1 : Option Int) ≠ some 0 →
      ({ success := false, content := "",
          error := some "Process exited with code 1\nStderr: boom",
          sessionId := none } : CliResult).success = false ∧
      (exitCodeString (some 1)).data <:+:
        (({ success := false, content := "",
            error := some "Process exited with code 1\nStderr: boom",
            sessionId := none } : CliResult).error.getD "").data ∧
      ((runModel echoTextParse
          [ProcEvent.stderrData "boom".data]).stderrContent ≠ "" →
        (runModel echoTextParse
          [ProcEvent.stderrData "boom".data]).stderrContent.data <:+:
          (({ success := false, content := "",
              error := some "Process exited with code 1\nStderr: boom",
              sessionId := none } : CliResult).error.getD "").data)) ∧
    ({ success := false, content := "",
        error := some "Process exited with code 1\nStderr: boom",
        sessionId := none } : CliResult).content =
      (processRemainingBuffer echoTextParse
        (cleanupAbortListener (runModel echoTextParse
          [ProcEvent.stderrData "boom".data]))).stream.fullContent ∧
    ({ success := false, content := "",
        error := some "Process exited with code 1\nStderr: boom",
        sessionId := none } : CliResult).sessionId =
      (processRemainingBuffer echoTextParse
        (cleanupAbortListener (runModel echoTextParse
          [ProcEvent.stderrData "boom".data]))).stream.sessionId :=
  exit_code_reconciliation echoTextParse
    (runModel echoTextParse [ProcEvent.stderrData "boom".data]) (some 1)
    { success := false, content := "",
      error := some "Process exited with code 1\nStderr: boom",
      sessionId := none } [] (by decide) (by decide)

/-! ### Callback exceptions -/

/-- **C6** (behaviour of the code at the failing input).  With a streaming
callback that throws, processing the chunk `"A\nB\n"` stops at the first
forwarded event: the text of line `A` was already accumulated and its
event invoked, the exception escapes the chunk-processing loop, and line
`B` is never parsed nor forwarded — the event log of the result contains
only the `A` event. -/
theorem callback_throw_aborts_chunk_loop :
    processChunkWithBufferExn echoTextParse throwingCallback "A\nB\n".data
        [] { fullContent := "", sessionId := none, events := [] } false =
      ([], { fullContent := "A", sessionId := none,
             events := [{ type := StreamContentType.text, content := "A",
                          toolName := none }] }, some "sink failure") := by
  decide

/-! ### Vendor parsers -/

/-- **C3.**  For every line on which `JSON.parse` fails (the empty string,
truncated or otherwise invalid JSON), each vendor's
`parseLineWithSession` returns the empty `ParseResult` — no content and no
session id — rather than throwing, so a single bad line cannot abort the
run.  (Totality of the embedded functions reflects the enclosing
`try`/`catch`.) -/
theorem malformed_line_empty_result
    (jpClaude : String → Option ClaudeStreamMessage)
    (jpCodex : String → Option CodexStreamMessage)
    (jpGemini : String → Option GeminiStreamMessage) (line : String)
    (hc : jpClaude line = none) (hx : jpCodex line = none)
    (hg : jpGemini line = none) :
    ClaudeCliRunner.parseLineWithSession jpClaude line =
      { content := none, sessionId := none } ∧
    CodexCliRunner.parseLineWithSession jpCodex line =
      { content := none, sessionId := none } ∧
    GeminiCliRunner.parseLineWithSession jpGemini line =
      { content := none, sessionId := none } := by
  refine ⟨?_, ?_, ?_⟩
  · simp [ClaudeCliRunner.parseLineWithSession, hc]
  · simp [CodexCliRunner.parseLineWithSession, hx]
  · simp [GeminiCliRunner.parseLineWithSession, hg]

/-- Witness for C3 at the empty line with a parser that rejects it. -/
theorem malformed_line_empty_result_witness :
    ClaudeCliRunner.parseLineWithSession (fun _ => none) "" =
      { content := none, sessionId := none } ∧
    CodexCliRunner.parseLineWithSession (fun _ => none) "" =
      { content := none, sessionId := none } ∧
    GeminiCliRunner.parseLineWithSession (fun _ => none) "" =
      { content := none, sessionId := none } :=
  malformed_line_empty_result (fun _ => none) (fun _ => none) (fun _ => none)
    "" rfl rfl rfl

theorem claude_itemContent_isSome (item : ClaudeContentItem) :
    (ClaudeCliRunner.itemContent item).isSome = ClaudeCliRunner.itemHit item := by
  by_cases h1 : item.type = "tool_use"
  · simp [ClaudeCliRunner.itemContent, ClaudeCliRunner.itemHit, h1]
  · by_cases h2 : item.type = "tool_result"
    · simp [ClaudeCliRunner.itemContent, ClaudeCliRunner.itemHit, h1, h2]
    · by_cases h4 : item.type = "text" <;>
        by_cases h3 : jsTruthyStr item.text = true <;>
        simp [ClaudeCliRunner.itemContent, ClaudeCliRunner.itemHit, h1, h2,
          h3, h4]

theorem claude_contentLoop_skip {l1 : List ClaudeContentItem}
    (h : ∀ y ∈ l1, ClaudeCliRunner.itemHit y = false)
    (l2 : List ClaudeContentItem) :
    ClaudeCliRunner.contentLoop (l1 ++ l2) =
      ClaudeCliRunner.contentLoop l2 := by
  induction l1 with
  | nil => rfl
  | cons y ys ih =>
    have hy : ClaudeCliRunner.itemContent y = none := by
      have hs := claude_itemContent_isSome y
      rw [h y (List.mem_cons_self _ _)] at hs
      exact Option.not_isSome_iff_eq_none.mp (by simp [hs])
    simp only [List.cons_append, ClaudeCliRunner.contentLoop, hy]
    exact ih fun z hz => h z (List.mem_cons_of_mem _ hz)

theorem claude_contentLoop_hit {x : ClaudeContentItem}
    (h : ClaudeCliRunner.itemHit x = true) (l2 : List ClaudeContentItem) :
    ClaudeCliRunner.contentLoop (x :: l2) = ClaudeCliRunner.itemContent x ∧
      (ClaudeCliRunner.itemContent x).isSome = true := by
  have hs : (ClaudeCliRunner.itemContent x).isSome = true := by
    rw [claude_itemContent_isSome]
    exact h
  cases hcx : ClaudeCliRunner.itemContent x with
  | none => rw [hcx] at hs; simp at hs
  | some c =>
    exact ⟨by simp [ClaudeCliRunner.contentLoop, hcx], rfl⟩

/-- **C10.**  For a line parsed by the Claude variant whose assistant
envelope carries a `message.content` array, the item loop stops at the
first item that is a `tool_use`, a `tool_result`, or a `text` item with
non-empty text: at most one content event is produced, it is the
conversion of that first firing item, and every later item in the array —
including further text payloads — is dropped, regardless of what it is. -/
theorem claude_first_content_item_wins
    (jp : String → Option ClaudeStreamMessage) (line : String)
    (msg : ClaudeStreamMessage) (body : ClaudeMessageBody)
    (l1 : List ClaudeContentItem) (x : ClaudeContentItem)
    (l2 : List ClaudeContentItem) (hjp : jp line = some msg)
    (htype : msg.type = "assistant") (hbody : msg.message = some body)
    (hcontent : body.content = some (l1 ++ x :: l2))
    (hmiss : ∀ y ∈ l1, ClaudeCliRunner.itemHit y = false)
    (hhit : ClaudeCliRunner.itemHit x = true) :
    (ClaudeCliRunner.parseLineWithSession jp line).content =
      ClaudeCliRunner.itemContent x ∧
    (ClaudeCliRunner.itemContent x).isSome = true := by
  obtain ⟨hl, hs⟩ := claude_contentLoop_hit hhit l2
  refine ⟨?_, hs⟩
  simp only [ClaudeCliRunner.parseLineWithSession, hjp, htype, hbody,
    hcontent, if_true]
  rw [claude_contentLoop_skip hmiss (x :: l2), hl]

/-- Witness for C10: in `demoClaudeMsg` the empty-text first item is
skipped, the second (`"hello"`) fires, and the trailing `"dropped"` item
never produces an event. -/
theorem claude_first_content_item_wins_witness :
    (ClaudeCliRunner.parseLineWithSession (fun _ => some demoClaudeMsg)
        "L").content =
      ClaudeCliRunner.itemContent { type := "text", text := some "hello" } ∧
    (ClaudeCliRunner.itemContent
      { type := "text", text := some "hello" }).isSome = true :=
  claude_first_content_item_wins (fun _ => some demoClaudeMsg) "L"
    demoClaudeMsg
    { content := some
        [ { type := "text", text := some "" }
        , { type := "text", text := some "hello" }
        , { type := "text", text := some "dropped" } ] }
    [{ type := "text", text := some "" }]
    { type := "text", text := some "hello" }
    [{ type := "text", text := some "dropped" }]
    rfl rfl rfl rfl (by decide) (by decide)

/-! ### Shell escaping -/

theorem collapseNewlinesAux_all (m : Bool) (l : List Char) :
    (collapseNewlinesAux m l).all (fun c => !isNlChar c) = true := by
  induction l generalizing m with
  | nil => rfl
  | cons c r ih =>
    by_cases hc : isNlChar c = true
    · cases m with
      | true =>
        have hred : collapseNewlinesAux true (c :: r) =
            collapseNewlinesAux true r := by
          simp [collapseNewlinesAux, hc]
        rw [hred]
        exact ih true
      | false =>
        have hred : collapseNewlinesAux false (c :: r) =
            ' ' :: collapseNewlinesAux true r := by
          simp [collapseNewlinesAux, hc]
        rw [hred]
        simp only [List.all_cons]
        rw [Bool.and_eq_true]
        exact ⟨by decide, ih true⟩
    · have hcf : isNlChar c = false := by simpa using hc
      have hred : collapseNewlinesAux m (c :: r) =
          c :: collapseNewlinesAux false r := by
        simp [collapseNewlinesAux, hcf]
      rw [hred]
      simp only [List.all_cons]
      rw [Bool.and_eq_true]
      exact ⟨by simp [hcf], ih false⟩

theorem escapeShellArg_win_data (arg : String) :
    (escapeShellArg true arg).data =
      '"' :: (collapseNewlines (escWinQuote (escWinBackslash arg.data)) ++
        ['"']) := rfl

theorem escapeShellArg_unix_data (arg : String) :
    (escapeShellArg false arg).data =
      squote :: (escUnixQuote arg.data ++ [squote]) := rfl

theorem shellParse_true_squote (X : List Char) :
    shellParseUnixState true (squote :: X) = shellParseUnixState false X := by
  rw [shellParseUnixState.eq_def]
  simp

theorem shellParse_false_squote (X : List Char) :
    shellParseUnixState false (squote :: X) = shellParseUnixState true X := by
  rw [shellParseUnixState.eq_def]
  simp

theorem shellParse_false_backslash (d : Char) (X : List Char) :
    shellParseUnixState false ('\\' :: d :: X) =
      (shellParseUnixState false X).map (fun r => d :: r) := by
  rw [shellParseUnixState.eq_def]
  simp [show ('\\' : Char) ≠ squote by decide]

theorem shellParse_true_other {c : Char} (hc : c ≠ squote) (X : List Char) :
    shellParseUnixState true (c :: X) =
      (shellParseUnixState true X).map (fun r => c :: r) := by
  rw [shellParseUnixState.eq_def]
  simp [hc]

theorem shellParse_escUnixQuote (s t : List Char) :
    shellParseUnixState true (escUnixQuote s ++ squote :: t) =
      (shellParseUnixState false t).map (fun r => s ++ r) := by
  induction s with
  | nil =>
    simp only [escUnixQuote, List.nil_append, shellParse_true_squote]
    cases shellParseUnixState false t <;> simp
  | cons c s' ih =>
    by_cases hc : c = squote
    · subst hc
      have he : escUnixQuote (squote :: s') =
          squote :: '\\' :: squote :: squote :: escUnixQuote s' := by
        simp [escUnixQuote]
      rw [he]
      simp only [List.cons_append]
      rw [shellParse_true_squote, shellParse_false_backslash,
        shellParse_false_squote, ih]
      cases shellParseUnixState false t <;> simp
    · have he : escUnixQuote (c :: s') = c :: escUnixQuote s' := by
        simp [escUnixQuote, hc]
      rw [he]
      simp only [List.cons_append]
      rw [shellParse_true_other hc, ih]
      cases shellParseUnixState false t <;> simp

/-- **C7.**  `run` applies `escapeShellArg` to every element of the
spawned argument vector (flag arguments first, prompt arguments last), and
`escapeShellArg` behaves per platform as specified: on `win32` the result
is wrapped in double quotes and contains no carriage return or line feed
(each embedded newline run having been collapsed to a single space after
backslash and double-quote escaping); on other platforms the argument is
single-quote wrapped with quote escaping, so that a POSIX shell word
reader recovers exactly the original argument. -/
theorem escape_shell_arg_applied (isWin : Bool)
    (args promptArgs : List String) (arg : String) :
    runAllArgs isWin args promptArgs =
      (args ++ promptArgs).map (escapeShellArg isWin) ∧
    ((escapeShellArg true arg).data).head? = some '"' ∧
    ((escapeShellArg true arg).data).getLast? = some '"' ∧
    ((escapeShellArg true arg).data).all (fun c => !isNlChar c) = true ∧
    shellParseUnixState false ((escapeShellArg false arg).data) =
      some arg.data ∧
    escapeShellArg true (String.mk ['a', '\r', '\n', '\n', 'b']) =
      String.mk ['"', 'a', ' ', 'b', '"'] ∧
    escapeShellArg true (String.mk ['a', '\\', '"', 'b']) =
      String.mk ['"', 'a', '\\', '\\', '\\', '"', 'b', '"'] := by
  refine ⟨?_, ?_, ?_, ?_, ?_, by decide, by decide⟩
  · simp [runAllArgs]
  · rw [escapeShellArg_win_data]
    rfl
  · rw [escapeShellArg_win_data, ← List.cons_append, List.getLast?_concat]
  · rw [escapeShellArg_win_data]
    simp only [List.all_cons, List.all_append]
    rw [Bool.and_eq_true, Bool.and_eq_true]
    exact ⟨by decide, collapseNewlinesAux_all false _, by decide⟩
  · rw [escapeShellArg_unix_data, shellParse_false_squote,
      shellParse_escUnixQuote]
    rw [shellParseUnixState.eq_def]
    simp

/-! ### Resume argument placement -/

/-- **C8.**  With a resume session id, the subcommand-style vendor (Codex)
places `resume <id>` after all flag groups (directories, output format,
allowed tools, model) and immediately before the positional prompt, while
the flag-style vendors (Claude, Gemini) emit `--resume <id>` as an
ordinary flag inside the flag sequence; without a resume id the resume
group contributes no arguments for any vendor. -/
theorem resume_argument_placement (cfg : CcaConfig) (sid : String)
    (mi : Option ModeInstructions) (prompt : Option String)
    (hsid : sid ≠ "") :
    (CodexCliRunner.buildCliOptions cfg (some sid) mi prompt).2 =
      ["exec"] ++ CodexCliRunner.getArgumentDirectories cfg ++
        CodexCliRunner.getArgumentOutputFormat ++
        CodexCliRunner.getArgumentAllowedTools cfg ++
        CodexCliRunner.getArgumentModel cfg ++
        ["resume", sid] ++ [CodexCliRunner.finalPrompt mi prompt] ∧
    (ClaudeCliRunner.buildCliOptions cfg (some sid) mi prompt).2 =
      ClaudeCliRunner.getArgumentOutputFormat ++
        ClaudeCliRunner.getArgumentAllowedTools cfg ++
        ClaudeCliRunner.getArgumentModel cfg ++ ["--resume", sid] ++
        ClaudeCliRunner.getArgumentDirectories cfg ++
        ClaudeCliRunner.getArgumentPrompt mi prompt ∧
    (GeminiCliRunner.buildCliOptions cfg (some sid) mi prompt).2 =
      GeminiCliRunner.getArgumentOutputFormat ++
        GeminiCliRunner.getArgumentAllowedTools ++
        GeminiCliRunner.getArgumentModel cfg ++ ["--resume", sid] ++
        GeminiCliRunner.getArgumentDirectories ++
        GeminiCliRunner.getArgumentPrompt mi prompt ∧
    CodexCliRunner.getArgumentResume none = [] ∧
    ClaudeCliRunner.getArgumentResume none = [] ∧
    GeminiCliRunner.getArgumentResume none = [] ∧
    (CodexCliRunner.buildCliOptions cfg none mi prompt).2 =
      ["exec"] ++ CodexCliRunner.getArgumentDirectories cfg ++
        CodexCliRunner.getArgumentOutputFormat ++
        CodexCliRunner.getArgumentAllowedTools cfg ++
        CodexCliRunner.getArgumentModel cfg ++
        [CodexCliRunner.finalPrompt mi prompt] ∧
    (ClaudeCliRunner.buildCliOptions cfg none mi prompt).2 =
      ClaudeCliRunner.getArgumentOutputFormat ++
        ClaudeCliRunner.getArgumentAllowedTools cfg ++
        ClaudeCliRunner.getArgumentModel cfg ++
        ClaudeCliRunner.getArgumentDirectories cfg ++
        ClaudeCliRunner.getArgumentPrompt mi prompt ∧
    (GeminiCliRunner.buildCliOptions cfg none mi prompt).2 =
      GeminiCliRunner.getArgumentOutputFormat ++
        GeminiCliRunner.getArgumentAllowedTools ++
        GeminiCliRunner.getArgumentModel cfg ++
        GeminiCliRunner.getArgumentDirectories ++
        GeminiCliRunner.getArgumentPrompt mi prompt := by
  have htr := jsTruthyStr_some hsid
  refine ⟨?_, ?_, ?_, rfl, rfl, rfl, ?_, ?_, ?_⟩
  · simp [CodexCliRunner.buildCliOptions, CodexCliRunner.getArgumentResume,
      CodexCliRunner.getArgumentPrompt, htr, List.append_assoc]
  · simp [ClaudeCliRunner.buildCliOptions, ClaudeCliRunner.getArgumentResume,
      htr, List.append_assoc]
  · simp [GeminiCliRunner.buildCliOptions, GeminiCliRunner.getArgumentResume,
      htr, List.append_assoc]
  · simp [CodexCliRunner.buildCliOptions, CodexCliRunner.getArgumentResume,
      CodexCliRunner.getArgumentPrompt, jsTruthyStr, List.append_assoc]
  · simp [ClaudeCliRunner.buildCliOptions, ClaudeCliRunner.getArgumentResume,
      jsTruthyStr, List.append_assoc]
  · simp [GeminiCliRunner.buildCliOptions, GeminiCliRunner.getArgumentResume,
      jsTruthyStr, List.append_assoc]

/-- Witness for C8 at a concrete configuration and resume id. -/
theorem resume_argument_placement_witness :
    (CodexCliRunner.buildCliOptions {} (some "abc") none (some "hi")).2 =
      ["exec"] ++ CodexCliRunner.getArgumentDirectories {} ++
        CodexCliRunner.getArgumentOutputFormat ++
        CodexCliRunner.getArgumentAllowedTools {} ++
        CodexCliRunner.getArgumentModel {} ++
        ["resume", "abc"] ++ [CodexCliRunner.finalPrompt none (some "hi")] ∧
    (ClaudeCliRunner.buildCliOptions {} (some "abc") none (some "hi")).2 =
      ClaudeCliRunner.getArgumentOutputFormat ++
        ClaudeCliRunner.getArgumentAllowedTools {} ++
        ClaudeCliRunner.getArgumentModel {} ++ ["--resume", "abc"] ++
        ClaudeCliRunner.getArgumentDirectories {} ++
        ClaudeCliRunner.getArgumentPrompt none (some "hi") ∧
    (GeminiCliRunner.buildCliOptions {} (some "abc") none (some "hi")).2 =
      GeminiCliRunner.getArgumentOutputFormat ++
        GeminiCliRunner.getArgumentAllowedTools ++
        GeminiCliRunner.getArgumentModel {} ++ ["--resume", "abc"] ++
        GeminiCliRunner.getArgumentDirectories ++
        GeminiCliRunner.getArgumentPrompt none (some "hi") ∧
    CodexCliRunner.getArgumentResume none = [] ∧
    ClaudeCliRunner.getArgumentResume none = [] ∧
    GeminiCliRunner.getArgumentResume none = [] ∧
    (CodexCliRunner.buildCliOptions {} none none (some "hi")).2 =
      ["exec"] ++ CodexCliRunner.getArgumentDirectories {} ++
        CodexCliRunner.getArgumentOutputFormat ++
        CodexCliRunner.getArgumentAllowedTools {} ++
        CodexCliRunner.getArgumentModel {} ++
        [CodexCliRunner.finalPrompt none (some "hi")] ∧
    (ClaudeCliRunner.buildCliOptions {} none none (some "hi")).2 =
      ClaudeCliRunner.getArgumentOutputFormat ++
        ClaudeCliRunner.getArgumentAllowedTools {} ++
        ClaudeCliRunner.getArgumentModel {} ++
        ClaudeCliRunner.getArgumentDirectories {} ++
        ClaudeCliRunner.getArgumentPrompt none (some "hi") ∧
    (GeminiCliRunner.buildCliOptions {} none none (some "hi")).2 =
      GeminiCliRunner.getArgumentOutputFormat ++
        GeminiCliRunner.getArgumentAllowedTools ++
        GeminiCliRunner.getArgumentModel {} ++
        GeminiCliRunner.getArgumentDirectories ++
        GeminiCliRunner.getArgumentPrompt none (some "hi") :=
  resume_argument_placement {} "abc" none (some "hi") (by decide)

end CliAgents
